import Mathlib

/-!
Solo-2 catalog manager: validation and statistics core of `src/app.js`

A shallow embedding of `validateFormData` (lines 119-137) and of the computations
inside `renderStats` (lines 175-213), followed by theorems about them.

Modelling conventions

* A JavaScript number is a `JSNum`: `NaN`, the two infinities, or a finite value
  carried as a rational.  Every finite double is a rational, and `Number.isInteger`,
  `<` and `>` depend only on that value.  The arithmetic of `renderStats` (`+`, `/`)
  is the exact operation followed by `roundToDouble`, the binary64 rounding to
  nearest, ties to even.  The theorems quantify over all rationals, a superset of the
  doubles.  Negative zero is identified with zero: no operation used here tells them
  apart (`-0 < 0` is false, `Number.isInteger(-0)` is true, and a sum that starts from
  `0` is never `-0`).
* A text field is an `Option String`; `none` stands for a missing property
  (`undefined` / `null`).  `rating : Option JSNum` uses `none` for `null`.  Strings are
  sequences of Unicode scalar values; all characters removed by `trim` are single
  UTF-16 units, so emptiness after trimming is the same in both views.
* `errs.push(m)` on the local array is `errs ++ [m]`.
* A `Map` is the list of its entries in insertion order.
* The DOM writes of `renderStats` are modelled by the values written: counts as
  natural numbers (shown through `String(n)`), the average as an `AvgText`.
-/

namespace Solo2

/-! ## JavaScript numbers -/

/-- A JavaScript number value. -/
inductive JSNum where
  | nan : JSNum
  | posInf : JSNum
  | negInf : JSNum
  | fin (q : ℚ) : JSNum
  deriving DecidableEq

namespace JSNum

/-- The embedding of `Number.isInteger(x)`: finite with an integral value. -/
def isInteger : JSNum → Bool
  | fin q => q.isInt
  | _ => false

/-- The embedding of `x < y` on numbers (false whenever an operand is `NaN`). -/
def lt : JSNum → JSNum → Bool
  | nan, _ => false
  | _, nan => false
  | fin a, fin b => decide (a < b)
  | fin _, posInf => true
  | fin _, negInf => false
  | negInf, negInf => false
  | negInf, _ => true
  | posInf, _ => false

/-- The embedding of `x > y` on numbers, which is `y < x` with the operands swapped. -/
def gt (x y : JSNum) : Bool := lt y x

/-- A numeric literal of the source that denotes an integer. -/
def lit (z : ℤ) : JSNum := fin z

end JSNum

/-! ## JavaScript strings -/

/-- The code points that `String.prototype.trim` strips: ECMAScript WhiteSpace and
LineTerminator. -/
def isJsWhiteSpace (c : Char) : Bool :=
  let n := c.toNat
  n == 0x9 || n == 0xA || n == 0xB || n == 0xC || n == 0xD || n == 0x20 || n == 0xA0 ||
  n == 0x1680 || (0x2000 ≤ n && n ≤ 0x200A) || n == 0x2028 || n == 0x2029 ||
  n == 0x202F || n == 0x205F || n == 0x3000 || n == 0xFEFF

/-- Trimming on a list of characters: leading and trailing white space removed. -/
def trimChars (cs : List Char) : List Char :=
  ((cs.dropWhile isJsWhiteSpace).reverse.dropWhile isJsWhiteSpace).reverse

/-- The embedding of `s.trim()`. -/
def jsTrim (s : String) : String := String.mk (trimChars s.data)

/-- The embedding of `!s` for a text field: only a missing value and the empty
string are falsy. -/
def falsy : Option String → Bool
  | none => true
  | some s => s == ""

/-! ## The validator -/

/-- The candidate record handed to `validateFormData` (the object built by the
submit handler, lines 318-326).  `notes` is carried but never inspected. -/
structure Candidate where
  title : Option String
  type : Option String
  genre : Option String
  year : JSNum
  rating : Option JSNum
  status : Option String
  notes : Option String := none

/-- The embedding of `!t || t.trim().length === 0`; the right operand is only
evaluated when `t` is a non-empty string. -/
def blankText : Option String → Bool
  | none => true
  | some s => falsy (some s) || (jsTrim s).length == 0

/-- The embedding of `errs.push(m)`. -/
def push (errs : List String) (m : String) : List String := errs ++ [m]

/-- The embedding of `validateFormData` (lines 119-137): eight independent `if`
statements, each pushing one message. -/
def validateFormData (data : Candidate) : List String :=
  let errs : List String := []
  let errs := if blankText data.title then push errs "Title is required." else errs
  let errs := if falsy data.type then push errs "Type is required." else errs
  let errs := if blankText data.genre then push errs "Genre is required." else errs
  let errs := if !data.year.isInteger then push errs "Year must be a whole number." else errs
  let errs := if data.year.lt (JSNum.lit 1900) || data.year.gt (JSNum.lit 2100) then
    push errs "Year must be between 1900 and 2100." else errs
  let errs := if falsy data.status then push errs "Status is required." else errs
  match data.rating with
  | none => errs
  | some r =>
    let errs := if !r.isInteger then push errs "Rating must be a whole number." else errs
    let errs := if r.lt (JSNum.lit 1) || r.gt (JSNum.lit 10) then
      push errs "Rating must be between 1 and 10." else errs
    errs

/-! ## The validation rules as the specification words them -/

/-- A text field is missing, or empty once trimmed. -/
def missingOrEmptyAfterTrim (t : Option String) : Prop :=
  t = none ∨ ∃ s, t = some s ∧ jsTrim s = ""

/-- A text field is missing or empty. -/
def missingOrEmpty (t : Option String) : Prop :=
  t = none ∨ t = some ""

/-- A number is outside the closed interval from `lo` to `hi` in the sense of the
comparisons `x < lo || x > hi`: it compares below `lo` or above `hi`.  For every value
but `NaN` this is the same as not being a member of the interval. -/
def outside (x : JSNum) (lo hi : ℤ) : Prop :=
  x.lt (JSNum.lit lo) = true ∨ x.gt (JSNum.lit hi) = true

/-- A supplied (non-null) rating that violates `bad`. -/
def ratingViolates (r : Option JSNum) (bad : JSNum → Prop) : Prop :=
  ∃ x, r = some x ∧ bad x

instance (t : Option String) : Decidable (missingOrEmptyAfterTrim t) :=
  match t with
  | none => isTrue (Or.inl rfl)
  | some s =>
    if h : jsTrim s = "" then isTrue (Or.inr ⟨s, rfl, h⟩)
    else isFalse (by
      rintro (h1 | ⟨u, h1, h2⟩)
      · cases h1
      · cases h1; exact h h2)

instance (t : Option String) : Decidable (missingOrEmpty t) :=
  inferInstanceAs (Decidable (t = none ∨ t = some ""))

instance (x : JSNum) (lo hi : ℤ) : Decidable (outside x lo hi) :=
  inferInstanceAs (Decidable (x.lt (JSNum.lit lo) = true ∨ x.gt (JSNum.lit hi) = true))

instance (r : Option JSNum) (bad : JSNum → Prop) [DecidablePred bad] :
    Decidable (ratingViolates r bad) :=
  match r with
  | none => isFalse (by rintro ⟨x, h, _⟩; cases h)
  | some x =>
    if h : bad x then isTrue ⟨x, rfl, h⟩
    else isFalse (by rintro ⟨y, h1, h2⟩; cases h1; exact h h2)

/-- The eight tests of `validateFormData` in source order, each as a verdict with its
message; an intermediate form between the code and the rule tables below. -/
def ruleTable (c : Candidate) : List (Bool × String) :=
  [ (decide (missingOrEmptyAfterTrim c.title), "Title is required."),
    (decide (missingOrEmpty c.type), "Type is required."),
    (decide (missingOrEmptyAfterTrim c.genre), "Genre is required."),
    (decide (c.year.isInteger = false), "Year must be a whole number."),
    (decide (outside c.year 1900 2100), "Year must be between 1900 and 2100."),
    (decide (missingOrEmpty c.status), "Status is required."),
    (decide (ratingViolates c.rating (fun x => x.isInteger = false)),
      "Rating must be a whole number."),
    (decide (ratingViolates c.rating (fun x => outside x 1 10)),
      "Rating must be between 1 and 10.") ]

/-- The messages of `ruleTable` whose test succeeds, in table order. -/
def violatedMessages (c : Candidate) : List String :=
  ((ruleTable c).filter (fun p => p.1)).map (fun p => p.2)

/-! ## The Record constraints of the data model -/

/-- A text field is present and non-empty once trimmed. -/
def nonEmptyAfterTrim (t : Option String) : Prop :=
  ∃ s, t = some s ∧ jsTrim s ≠ ""

/-- A text field is present and non-empty. -/
def nonEmpty (t : Option String) : Prop :=
  ∃ s, t = some s ∧ s ≠ ""

/-- A number is an integer of the closed interval from `lo` to `hi`. -/
def integerIn (x : JSNum) (lo hi : ℤ) : Prop :=
  ∃ z : ℤ, x = JSNum.fin z ∧ lo ≤ z ∧ z ≤ hi

/-- The fixed status set (the array `statuses` of `renderStats`, line 205). -/
def statuses : List String := ["Planned", "Watching", "Completed", "Dropped"]

/-- All Record constraints of the data model, the status being one of the four
fixed statuses. -/
def recordConstraints (c : Candidate) : Prop :=
  nonEmptyAfterTrim c.title ∧ nonEmpty c.type ∧ nonEmptyAfterTrim c.genre ∧
  integerIn c.year 1900 2100 ∧
  (c.rating = none ∨ ∃ r, c.rating = some r ∧ integerIn r 1 10) ∧
  ∃ s ∈ statuses, c.status = some s

/-- The Record constraints with the status only required to be non-empty. -/
def checkedConstraints (c : Candidate) : Prop :=
  nonEmptyAfterTrim c.title ∧ nonEmpty c.type ∧ nonEmptyAfterTrim c.genre ∧
  integerIn c.year 1900 2100 ∧
  (c.rating = none ∨ ∃ r, c.rating = some r ∧ integerIn r 1 10) ∧
  nonEmpty c.status

/-- A finite number of the closed interval from `lo` to `hi`. -/
def inside (x : JSNum) (lo hi : ℤ) : Prop :=
  ∃ q : ℚ, x = JSNum.fin q ∧ (lo : ℚ) ≤ q ∧ q ≤ (hi : ℚ)

/-- A number that is an integer. -/
def isWhole (x : JSNum) : Prop :=
  ∃ z : ℤ, x = JSNum.fin z

/-- A value that is not a member of the closed interval from `lo` to `hi`: a finite
number below or above it, an infinity, or `NaN`. -/
def notWithin (x : JSNum) (lo hi : ℤ) : Prop :=
  ¬ inside x lo hi

/-- A number that lies below `lo` or above `hi` in the numeric order.  The infinities
do; `NaN`, which is not ordered against any number, does not. -/
def beyond (x : JSNum) (lo hi : ℤ) : Prop :=
  match x with
  | JSNum.fin q => q < (lo : ℚ) ∨ (hi : ℚ) < q
  | JSNum.posInf => True
  | JSNum.negInf => True
  | JSNum.nan => False

instance (x : JSNum) : Decidable (isWhole x) :=
  match x with
  | JSNum.fin q =>
    if h : q.den = 1 then
      isTrue ⟨q.num, congrArg JSNum.fin ((Rat.den_eq_one_iff q).1 h).symm⟩
    else isFalse (by rintro ⟨z, hz⟩; cases hz; exact h (Rat.den_intCast z))
  | JSNum.nan => isFalse (by rintro ⟨z, hz⟩; cases hz)
  | JSNum.posInf => isFalse (by rintro ⟨z, hz⟩; cases hz)
  | JSNum.negInf => isFalse (by rintro ⟨z, hz⟩; cases hz)

instance (x : JSNum) (lo hi : ℤ) : Decidable (inside x lo hi) :=
  match x with
  | JSNum.fin q =>
    if h : (lo : ℚ) ≤ q ∧ q ≤ (hi : ℚ) then isTrue ⟨q, rfl, h⟩
    else isFalse (by rintro ⟨p, hp, h2⟩; cases hp; exact h h2)
  | JSNum.nan => isFalse (by rintro ⟨p, hp, _⟩; cases hp)
  | JSNum.posInf => isFalse (by rintro ⟨p, hp, _⟩; cases hp)
  | JSNum.negInf => isFalse (by rintro ⟨p, hp, _⟩; cases hp)

instance (x : JSNum) (lo hi : ℤ) : Decidable (notWithin x lo hi) :=
  inferInstanceAs (Decidable (¬ inside x lo hi))

instance (x : JSNum) (lo hi : ℤ) : Decidable (beyond x lo hi) :=
  match x with
  | JSNum.fin q => inferInstanceAs (Decidable (q < (lo : ℚ) ∨ (hi : ℚ) < q))
  | JSNum.posInf => isTrue trivial
  | JSNum.negInf => isTrue trivial
  | JSNum.nan => isFalse not_false

/-- The messages of a rule table whose verdict is `true`, in table order. -/
def keptMessages (table : List (Bool × String)) : List String :=
  (table.filter (fun p => p.1)).map (fun p => p.2)

/-- The eight rules in the words of the claim, in declaration order, each with whether
the candidate violates it: the year rule is the comparison `year < 1900 or year >
2100`, the last rule is a supplied rating outside the interval from 1 to 10. -/
def statedRuleTable (c : Candidate) : List (Bool × String) :=
  [ (decide (missingOrEmptyAfterTrim c.title), "Title is required."),
    (decide (missingOrEmpty c.type), "Type is required."),
    (decide (missingOrEmptyAfterTrim c.genre), "Genre is required."),
    (decide (¬ isWhole c.year), "Year must be a whole number."),
    (decide (beyond c.year 1900 2100), "Year must be between 1900 and 2100."),
    (decide (missingOrEmpty c.status), "Status is required."),
    (decide (ratingViolates c.rating (fun x => ¬ isWhole x)),
      "Rating must be a whole number."),
    (decide (ratingViolates c.rating (fun x => notWithin x 1 10)),
      "Rating must be between 1 and 10.") ]

/-- The eight rules with the last one read as a comparison too: a supplied rating
that is below 1 or above 10, which a `NaN` rating is not. -/
def amendedRuleTable (c : Candidate) : List (Bool × String) :=
  [ (decide (missingOrEmptyAfterTrim c.title), "Title is required."),
    (decide (missingOrEmpty c.type), "Type is required."),
    (decide (missingOrEmptyAfterTrim c.genre), "Genre is required."),
    (decide (¬ isWhole c.year), "Year must be a whole number."),
    (decide (beyond c.year 1900 2100), "Year must be between 1900 and 2100."),
    (decide (missingOrEmpty c.status), "Status is required."),
    (decide (ratingViolates c.rating (fun x => ¬ isWhole x)),
      "Rating must be a whole number."),
    (decide (ratingViolates c.rating (fun x => beyond x 1 10)),
      "Rating must be between 1 and 10.") ]

/-- The outputs the claim prescribes when only the year can be at fault: nothing for
an integer in the range, the range message alone for an integer outside it, the
whole-number message alone for a non-integer inside it, and both, in that order, for
a non-integer outside it. -/
def statedYearVerdict (c : Candidate) : Prop :=
  (isWhole c.year ∧ inside c.year 1900 2100 → validateFormData c = []) ∧
  (isWhole c.year ∧ notWithin c.year 1900 2100 →
    validateFormData c = ["Year must be between 1900 and 2100."]) ∧
  (¬ isWhole c.year ∧ inside c.year 1900 2100 →
    validateFormData c = ["Year must be a whole number."]) ∧
  (¬ isWhole c.year ∧ notWithin c.year 1900 2100 →
    validateFormData c = ["Year must be a whole number.", "Year must be between 1900 and 2100."])

/-- The outputs when only the year can be at fault, every year covered: nothing for an
integer in the range, the range message alone for an integer below or above it, the
whole-number message alone for a non-integer in the range and for `NaN`, and both, in
that order, for a non-integer below or above the range. -/
def yearVerdict (c : Candidate) : Prop :=
  (isWhole c.year ∧ inside c.year 1900 2100 → validateFormData c = []) ∧
  (isWhole c.year ∧ beyond c.year 1900 2100 →
    validateFormData c = ["Year must be between 1900 and 2100."]) ∧
  (¬ isWhole c.year ∧ (inside c.year 1900 2100 ∨ c.year = JSNum.nan) →
    validateFormData c = ["Year must be a whole number."]) ∧
  (¬ isWhole c.year ∧ beyond c.year 1900 2100 →
    validateFormData c = ["Year must be a whole number.", "Year must be between 1900 and 2100."])

/-! ## Sample candidates -/

/-- A candidate that passes every rule. -/
def duneCandidate : Candidate :=
  { title := some "Dune", type := some "Movie", genre := some "Sci-Fi",
    year := JSNum.fin 2021, rating := some (JSNum.fin 9), status := some "Completed" }

/-- A candidate whose status is a non-empty string outside the fixed set. -/
def archivedCandidate : Candidate :=
  { duneCandidate with status := some "Archived" }

/-- A candidate violating all eight rules at once. -/
def worstCandidate : Candidate :=
  { title := some "  ", type := some "", genre := none,
    year := JSNum.fin (6001 / 2), rating := some (JSNum.fin (31 / 2)), status := none }

/-- A candidate whose title is a single space: non-empty, yet empty once trimmed. -/
def spaceTitleCandidate : Candidate :=
  { duneCandidate with title := some " ", rating := none }

/-- A candidate with no rating whose year is `NaN`, the value `Number.parseInt` gives
for an empty or non-numeric year field (line 322). -/
def nanYearCandidate : Candidate :=
  { duneCandidate with year := JSNum.nan, rating := none }

/-- A candidate with no rating and the non-integer, out-of-range year 3000.5. -/
def farYearCandidate : Candidate :=
  { duneCandidate with year := JSNum.fin (6001 / 2), rating := none }

/-- A candidate whose rating is `NaN`, the value `Number.parseInt` gives for
non-numeric text (line 323). -/
def nanRatingCandidate : Candidate :=
  { duneCandidate with rating := some JSNum.nan }

/-- A candidate rated 11. -/
def elevenCandidate : Candidate :=
  { duneCandidate with rating := some (JSNum.fin 11) }

/-! ## Double-precision arithmetic

`sum + r.rating` and `sum / length` are IEEE-754 binary64 operations: the exact
result rounded to the nearest double, ties to the even significand. -/

/-- Rounding a rational to the nearest integer, ties to the even one. -/
def roundHalfEven (x : ℚ) : ℤ :=
  let f := ⌊x⌋
  if x - f < 1 / 2 then f
  else if 1 / 2 < x - f then f + 1
  else if f % 2 = 0 then f else f + 1

/-- Rounding an exact value to binary64, round-to-nearest-even.  The significand has
53 bits; the unit in the last place is `2 ^ (e - 52)` where `e` is the binary exponent
of the value, never below `-1022` (subnormal range); a result of `2 ^ 1024` or more
overflows to an infinity. -/
def roundToDouble (q : ℚ) : JSNum :=
  if q = 0 then JSNum.fin 0
  else
    let e : ℤ := max (Int.log 2 |q|) (-1022)
    let ulp : ℚ := (2 : ℚ) ^ (e - 52)
    let v : ℚ := (roundHalfEven (|q| / ulp) : ℚ) * ulp
    if (2 : ℚ) ^ (1024 : ℤ) ≤ v then (if q < 0 then JSNum.negInf else JSNum.posInf)
    else JSNum.fin (if q < 0 then -v else v)

namespace JSNum

/-- The embedding of `x + y` on numbers. -/
def add : JSNum → JSNum → JSNum
  | nan, _ => nan
  | _, nan => nan
  | posInf, negInf => nan
  | negInf, posInf => nan
  | posInf, _ => posInf
  | _, posInf => posInf
  | negInf, _ => negInf
  | _, negInf => negInf
  | fin a, fin b => roundToDouble (a + b)

/-- The embedding of `x / y` on numbers. -/
def div : JSNum → JSNum → JSNum
  | nan, _ => nan
  | _, nan => nan
  | fin a, fin b =>
    if b = 0 then (if a = 0 then nan else if 0 < a then posInf else negInf)
    else roundToDouble (a / b)
  | fin _, _ => fin 0
  | posInf, fin b => if 0 ≤ b then posInf else negInf
  | negInf, fin b => if 0 ≤ b then negInf else posInf
  | _, _ => nan

end JSNum

/-- The text shown for the average rating: the dash, a numeral with exactly one
fractional digit (sign, and the value counted in tenths: `fixed1 false 85` is the
text `8.5`), or the general number-to-string form that `toFixed` falls back to. -/
inductive AvgText where
  | dash : AvgText
  | fixed1 (negative : Bool) (tenths : ℕ) : AvgText
  | general (x : JSNum) : AvgText
  deriving DecidableEq

/-- The characters of a `fixed1` text: optional minus sign, the integer part, a dot
and one digit. -/
def fixed1String (negative : Bool) (tenths : ℕ) : String :=
  (if negative then "-" else "") ++ toString (tenths / 10) ++ "." ++ toString (tenths % 10)

/-- The numeric value of a `fixed1` text. -/
def fixed1Value (negative : Bool) (tenths : ℕ) : ℚ :=
  (if negative then -1 else 1) * ((tenths : ℚ) / 10)

/-- The embedding of `x.toFixed(1)` (ECMAScript `Number.prototype.toFixed`): a
non-finite number, or one of magnitude `10 ^ 21` or more, is printed by the general
number-to-string conversion; otherwise the sign is split off and the magnitude is
replaced by the integer `n` for which `n / 10` is closest to it, the larger `n` on a
tie. -/
def toFixed1 : JSNum → AvgText
  | JSNum.fin q =>
    if (10 : ℚ) ^ 21 ≤ |q| then AvgText.general (JSNum.fin q)
    else AvgText.fixed1 (decide (q < 0)) ⌊10 * |q| + 1 / 2⌋.toNat
  | x => AvgText.general x

/-! ## Records and `renderStats` -/

/-- An element of the module-level array `records` (lines 54, 101), restricted to the
fields `renderStats` reads.  `none` is a missing or `null` property; a `rating` that
is not a number is also `none`. -/
structure Record where
  genre : Option String
  rating : Option JSNum
  status : Option String

/-- The embedding of `Number.isInteger(r.rating)`. -/
def ratingIsInteger : Option JSNum → Bool
  | some x => x.isInteger
  | none => false

/-- The number `r.rating` as the operand of `sum + r.rating`; the reducer only sees
records that passed `Number.isInteger(r.rating)`, so the `none` case is not reached. -/
def ratingNumber : Option JSNum → JSNum
  | some x => x
  | none => JSNum.nan

/-- The embedding of `records.filter((r) => r.status === "Completed")` (line 178). -/
def completed (records : List Record) : List Record :=
  records.filter (fun r => r.status == some "Completed")

/-- The embedding of `completed.filter((r) => Number.isInteger(r.rating))` (line 181). -/
def completedWithRating (records : List Record) : List Record :=
  (completed records).filter (fun r => ratingIsInteger r.rating)

/-- The embedding of `completedWithRating.reduce((sum, r) => sum + r.rating, 0)`. -/
def ratingSum (rs : List Record) : JSNum :=
  rs.foldl (fun sum r => JSNum.add sum (ratingNumber r.rating)) (JSNum.fin 0)

/-- The text written to `statAvgRating` (lines 182-187). -/
def statAvgRating (records : List Record) : AvgText :=
  let cwr := completedWithRating records
  if cwr.length = 0 then AvgText.dash
  else
    let avg := JSNum.div (ratingSum cwr) (JSNum.fin (cwr.length : ℚ))
    toFixed1 avg

/-- The embedding of `genreCounts.get(g)` on a `Map` kept as its list of entries in
insertion order. -/
def mapGet (m : List (String × ℕ)) (g : String) : Option ℕ :=
  match m with
  | [] => none
  | (k, c) :: rest => if k = g then some c else mapGet rest g

/-- The embedding of `genreCounts.set(g, c)`: an existing key keeps its place and gets
the new value, a new key is appended. -/
def mapSet (m : List (String × ℕ)) (g : String) (c : ℕ) : List (String × ℕ) :=
  match m with
  | [] => [(g, c)]
  | (k, v) :: rest => if k = g then (k, c) :: rest else (k, v) :: mapSet rest g c

/-- The embedding of `String(r.genre || "").trim()` (line 191). -/
def trimmedGenre (r : Record) : String :=
  jsTrim (r.genre.getD "")

/-- The body of the tallying loop (lines 190-194). -/
def tallyStep (genreCounts : List (String × ℕ)) (r : Record) : List (String × ℕ) :=
  let g := trimmedGenre r
  if g = "" then genreCounts
  else mapSet genreCounts g ((mapGet genreCounts g).getD 0 + 1)

/-- The map `genreCounts` after the tallying loop. -/
def genreCounts (records : List Record) : List (String × ℕ) :=
  records.foldl tallyStep []

/-- The body of the selection loop (lines 197-202) on the pair `(topGenre, topCount)`. -/
def topStep (top : String × ℕ) (entry : String × ℕ) : String × ℕ :=
  if entry.2 > top.2 then (entry.1, entry.2) else top

/-- The text written to `statTopGenre` (lines 189-203). -/
def statTopGenre (records : List Record) : String :=
  ((genreCounts records).foldl topStep ("—", 0)).1

/-- The entries of the list `statusBreakdown` (lines 205-212): one per fixed status,
with the count shown after it. -/
def statusBreakdown (records : List Record) : List (String × ℕ) :=
  statuses.map (fun s => (s, (records.filter (fun r => r.status == some s)).length))

/-- The number written to `statTotal` (line 176). -/
def statTotal (records : List Record) : ℕ := records.length

/-- The number written to `statCompleted` (line 179). -/
def statCompleted (records : List Record) : ℕ := (completed records).length

/-- What `renderStats` writes to the five statistics elements. -/
structure StatsView where
  total : ℕ
  completedCount : ℕ
  averageRating : AvgText
  topGenre : String
  breakdown : List (String × ℕ)

/-- The embedding of `renderStats` (lines 175-213) on the array `records`. -/
def renderStats (records : List Record) : StatsView :=
  { total := statTotal records
    completedCount := statCompleted records
    averageRating := statAvgRating records
    topGenre := statTopGenre records
    breakdown := statusBreakdown records }

/-! ## Vocabulary for the statistics claims -/

/-- The genres to be tallied, in input order: the genre text of each record with its
leading and trailing white space removed; a record whose genre is missing, or empty
once trimmed, contributes nothing. -/
def genreSeq (records : List Record) : List String :=
  records.filterMap (fun r =>
    match r.genre with
    | none => none
    | some s => if jsTrim s = "" then none else some (jsTrim s))

/-- The distinct elements of a list in order of first occurrence. -/
def firstSeen : List String → List String
  | [] => []
  | g :: rest => g :: (firstSeen rest).filter (fun h => h ≠ g)

/-- The largest number of occurrences of any element of the list. -/
def maxCount (gs : List String) : ℕ :=
  (gs.map (fun g => gs.count g)).foldr max 0

/-- The element at the first position where the running count of the element at that
position reaches the largest final count. -/
def firstReachingMax (gs : List String) : Option String :=
  ((List.range gs.length).find?
    (fun i => (gs.take (i + 1)).count (gs.getD i "") == maxCount gs)).map
    (fun i => gs.getD i "")

/-- Two or more genres tie for the largest count. -/
def tiedForMax (gs : List String) : Prop :=
  ∃ a ∈ gs, ∃ b ∈ gs, a ≠ b ∧ gs.count a = maxCount gs ∧ gs.count b = maxCount gs

/-- The integer rating of a record whose status is exactly `"Completed"` and whose
rating is an integer; nothing for any other record. -/
def ratedValue (r : Record) : Option ℤ :=
  match r.status, r.rating with
  | some s, some (JSNum.fin q) => if s = "Completed" ∧ q.den = 1 then some q.num else none
  | _, _ => none

/-- The ratings of the records whose status is exactly `"Completed"` and whose rating
is an integer, in input order. -/
def ratedCompleted (records : List Record) : List ℤ :=
  records.filterMap ratedValue

/-- The exact arithmetic mean of a list of integers. -/
def exactMean (zs : List ℤ) : ℚ := (zs.sum : ℚ) / (zs.length : ℚ)

/-- A record with the given genre, integer rating and status. -/
def mkRecord (genre : String) (rating : Option ℤ) (status : String) : Record :=
  { genre := some genre
    rating := rating.map (fun (z : ℤ) => JSNum.fin (z : ℚ))
    status := some status }

/-- Three records, two of them Completed with ratings 8 and 9. -/
def threeRecords : List Record :=
  [mkRecord "A" (some 8) "Completed", mkRecord "B" none "Planned",
   mkRecord "A" (some 9) "Completed"]

/-- Records with genres A, B, A, B. -/
def genresABAB : List Record :=
  [mkRecord "A" none "Planned", mkRecord "B" none "Watching", mkRecord "A" none "Dropped",
   mkRecord "B" none "Completed"]

/-- Records with genres A, B, B, A: B is the first to reach the count 2. -/
def genresABBA : List Record :=
  [mkRecord "A" none "Planned", mkRecord "B" none "Watching", mkRecord "B" none "Dropped",
   mkRecord "A" none "Completed"]

/-- Records one of which has a status outside the fixed set. -/
def oddStatusRecords : List Record :=
  [mkRecord "A" none "Planned", mkRecord "B" none "Archived", mkRecord "C" none "Completed"]

/-- A single Completed record rated `10 ^ 21`. -/
def hugeRatingRecords : List Record :=
  [mkRecord "A" (some (10 ^ 21)) "Completed"]

/-- Two Completed records rated `2 ^ 53` and `1`. -/
def lostUnitRecords : List Record :=
  [mkRecord "A" (some (2 ^ 53)) "Completed", mkRecord "A" (some 1) "Completed"]

/-! # Theorems -/

/-! ## Validator: the code's conditions are the specification's rules -/

theorem jsTrim_length_eq_zero (s : String) : (jsTrim s).length = 0 ↔ jsTrim s = "" := by
  constructor
  · intro h
    exact String.ext (List.length_eq_zero.1 h)
  · intro h; rw [h]; rfl

theorem jsTrim_empty : jsTrim "" = "" := rfl

theorem blankText_iff (t : Option String) : blankText t = true ↔ missingOrEmptyAfterTrim t := by
  cases t with
  | none => simp [blankText, missingOrEmptyAfterTrim]
  | some s =>
    simp only [blankText, falsy, missingOrEmptyAfterTrim, Bool.or_eq_true, beq_iff_eq,
      Option.some.injEq, false_or, reduceCtorEq]
    constructor
    · rintro (h | h)
      · exact ⟨s, rfl, by rw [h]; rfl⟩
      · exact ⟨s, rfl, (jsTrim_length_eq_zero s).1 h⟩
    · rintro ⟨u, rfl, h⟩
      exact Or.inr ((jsTrim_length_eq_zero _).2 h)

theorem falsy_iff (t : Option String) : falsy t = true ↔ missingOrEmpty t := by
  cases t with
  | none => simp [falsy, missingOrEmpty]
  | some s => simp [falsy, missingOrEmpty]

theorem outside_iff (x : JSNum) (lo hi : ℤ) :
    (x.lt (JSNum.lit lo) || x.gt (JSNum.lit hi)) = true ↔ outside x lo hi := by
  simp [outside]

/-- The validator written as one concatenation of optional singleton messages. -/
theorem validateFormData_eq_append (c : Candidate) :
    validateFormData c =
      (if blankText c.title then ["Title is required."] else []) ++
      (if falsy c.type then ["Type is required."] else []) ++
      (if blankText c.genre then ["Genre is required."] else []) ++
      (if c.year.isInteger then [] else ["Year must be a whole number."]) ++
      (if c.year.lt (JSNum.lit 1900) || c.year.gt (JSNum.lit 2100) then
        ["Year must be between 1900 and 2100."] else []) ++
      (if falsy c.status then ["Status is required."] else []) ++
      (match c.rating with
        | none => []
        | some r =>
          (if r.isInteger then [] else ["Rating must be a whole number."]) ++
          (if r.lt (JSNum.lit 1) || r.gt (JSNum.lit 10) then
            ["Rating must be between 1 and 10."] else [])) := by
  rcases c with ⟨t, ty, g, y, r, st, n⟩
  unfold validateFormData push
  cases r with
  | none =>
    dsimp only
    cases blankText t <;> cases falsy ty <;> cases blankText g <;> cases y.isInteger <;>
      cases (y.lt (JSNum.lit 1900) || y.gt (JSNum.lit 2100)) <;> cases falsy st <;> rfl
  | some r =>
    dsimp only
    cases blankText t <;> cases falsy ty <;> cases blankText g <;> cases y.isInteger <;>
      cases (y.lt (JSNum.lit 1900) || y.gt (JSNum.lit 2100)) <;> cases falsy st <;>
      cases r.isInteger <;> cases (r.lt (JSNum.lit 1) || r.gt (JSNum.lit 10)) <;> rfl

theorem ratingViolates_none (bad : JSNum → Prop) : ¬ ratingViolates none bad := by
  rintro ⟨x, h, _⟩; cases h

theorem ratingViolates_some (r : JSNum) (bad : JSNum → Prop) :
    ratingViolates (some r) bad ↔ bad r := by
  constructor
  · rintro ⟨x, h, hx⟩; cases h; exact hx
  · intro h; exact ⟨r, rfl, h⟩

/-- Whatever the eight verdicts are, filtering the table keeps every message whose
verdict is `true`, keeps no other, and repeats none. -/
theorem filtered_table_facts (b1 b2 b3 b4 b5 b6 b7 b8 : Bool) :
    ((([(b1, "Title is required."), (b2, "Type is required."), (b3, "Genre is required."),
        (b4, "Year must be a whole number."), (b5, "Year must be between 1900 and 2100."),
        (b6, "Status is required."), (b7, "Rating must be a whole number."),
        (b8, "Rating must be between 1 and 10.")] : List (Bool × String)).filter
          (fun p => p.1)).map (fun p => p.2)).Nodup ∧
    ∀ p ∈ ([(b1, "Title is required."), (b2, "Type is required."), (b3, "Genre is required."),
        (b4, "Year must be a whole number."), (b5, "Year must be between 1900 and 2100."),
        (b6, "Status is required."), (b7, "Rating must be a whole number."),
        (b8, "Rating must be between 1 and 10.")] : List (Bool × String)),
      (p.2 ∈ (([(b1, "Title is required."), (b2, "Type is required."),
        (b3, "Genre is required."),
        (b4, "Year must be a whole number."), (b5, "Year must be between 1900 and 2100."),
        (b6, "Status is required."), (b7, "Rating must be a whole number."),
        (b8, "Rating must be between 1 and 10.")] : List (Bool × String)).filter
          (fun p => p.1)).map (fun p => p.2) ↔ p.1 = true) := by
  cases b1 <;> cases b2 <;> cases b3 <;> cases b4 <;> cases b5 <;> cases b6 <;>
    cases b7 <;> cases b8 <;> decide

theorem validateFormData_eq_violatedMessages (c : Candidate) :
    validateFormData c = violatedMessages c := by
  have h1 : blankText c.title = decide (missingOrEmptyAfterTrim c.title) := by
    rw [Bool.eq_iff_iff]; simp [blankText_iff]
  have h2 : falsy c.type = decide (missingOrEmpty c.type) := by
    rw [Bool.eq_iff_iff]; simp [falsy_iff]
  have h3 : blankText c.genre = decide (missingOrEmptyAfterTrim c.genre) := by
    rw [Bool.eq_iff_iff]; simp [blankText_iff]
  have h5 : (c.year.lt (JSNum.lit 1900) || c.year.gt (JSNum.lit 2100))
      = decide (outside c.year 1900 2100) := by
    rw [Bool.eq_iff_iff]; simp [outside]
  have h6 : falsy c.status = decide (missingOrEmpty c.status) := by
    rw [Bool.eq_iff_iff]; simp [falsy_iff]
  rw [validateFormData_eq_append, h1, h2, h3, h5, h6]
  unfold violatedMessages ruleTable
  cases hr : c.rating with
  | none =>
    have h7 : ∀ bad, [DecidablePred bad] → decide (ratingViolates none bad) = false :=
      fun bad _ => decide_eq_false (ratingViolates_none bad)
    rw [h7, h7]
    cases decide (missingOrEmptyAfterTrim c.title) <;> cases decide (missingOrEmpty c.type) <;>
      cases decide (missingOrEmptyAfterTrim c.genre) <;> cases c.year.isInteger <;>
      cases decide (outside c.year 1900 2100) <;> cases decide (missingOrEmpty c.status) <;> rfl
  | some r =>
    have h7 : ∀ bad, [DecidablePred bad] → decide (ratingViolates (some r) bad) = decide (bad r) :=
      fun bad _ => by rw [Bool.eq_iff_iff]; simp [ratingViolates_some]
    have h8 : (r.lt (JSNum.lit 1) || r.gt (JSNum.lit 10)) = decide (outside r 1 10) := by
      rw [Bool.eq_iff_iff]; simp [outside]
    rw [h7, h7]
    dsimp only
    rw [h8]
    cases decide (missingOrEmptyAfterTrim c.title) <;> cases decide (missingOrEmpty c.type) <;>
      cases decide (missingOrEmptyAfterTrim c.genre) <;> cases c.year.isInteger <;>
      cases decide (outside c.year 1900 2100) <;> cases decide (missingOrEmpty c.status) <;>
      cases r.isInteger <;> cases decide (outside r 1 10) <;> rfl

theorem mem_validateFormData_iff (c : Candidate) :
    ∀ p ∈ ruleTable c, (p.2 ∈ validateFormData c ↔ p.1 = true) := by
  rw [validateFormData_eq_violatedMessages]
  exact (filtered_table_facts _ _ _ _ _ _ _ _).2

theorem whole_rating_mem_iff (c : Candidate) :
    "Rating must be a whole number." ∈ validateFormData c ↔
      ratingViolates c.rating (fun x => x.isInteger = false) := by
  have h := mem_validateFormData_iff c
    (decide (ratingViolates c.rating (fun x => x.isInteger = false)),
      "Rating must be a whole number.") (by simp [ruleTable])
  simpa using h

theorem range_rating_mem_iff (c : Candidate) :
    "Rating must be between 1 and 10." ∈ validateFormData c ↔
      ratingViolates c.rating (fun x => outside x 1 10) := by
  have h := mem_validateFormData_iff c
    (decide (ratingViolates c.rating (fun x => outside x 1 10)),
      "Rating must be between 1 and 10.") (by simp [ruleTable])
  simpa using h

/-! ## Validator: numbers -/

theorem isInteger_iff (x : JSNum) : x.isInteger = true ↔ ∃ z : ℤ, x = JSNum.fin z := by
  cases x with
  | fin q =>
    simp only [JSNum.isInteger, Rat.isInt, Nat.beq_eq_true_eq, JSNum.fin.injEq]
    constructor
    · intro h; exact ⟨q.num, (Rat.den_eq_one_iff q).1 h |>.symm⟩
    · rintro ⟨z, rfl⟩; rfl
  | nan => simp [JSNum.isInteger]
  | posInf => simp [JSNum.isInteger]
  | negInf => simp [JSNum.isInteger]

theorem lt_lit_int (z a : ℤ) : (JSNum.fin z).lt (JSNum.lit a) = true ↔ z < a := by
  simp [JSNum.lt, JSNum.lit]

theorem gt_lit_int (z a : ℤ) : (JSNum.fin z).gt (JSNum.lit a) = true ↔ a < z := by
  simp [JSNum.lt, JSNum.gt, JSNum.lit]

theorem isWhole_iff (x : JSNum) : isWhole x ↔ x.isInteger = true :=
  (isInteger_iff x).symm

theorem beyond_iff_outside (x : JSNum) (lo hi : ℤ) : beyond x lo hi ↔ outside x lo hi := by
  cases x <;> simp [beyond, outside, JSNum.lt, JSNum.gt, JSNum.lit]

/-- Apart from `NaN`, comparing below or above the bounds is the same as not being a
member of the interval. -/
theorem outside_iff_notWithin (x : JSNum) (lo hi : ℤ) (hx : x ≠ JSNum.nan) :
    outside x lo hi ↔ notWithin x lo hi := by
  rw [← beyond_iff_outside]
  cases x with
  | nan => exact absurd rfl hx
  | posInf =>
    constructor
    · rintro _ ⟨q, hq, _⟩
      cases hq
    · intro _
      trivial
  | negInf =>
    constructor
    · rintro _ ⟨q, hq, _⟩
      cases hq
    · intro _
      trivial
  | fin q =>
    constructor
    · rintro h ⟨p, hp, h1, h2⟩
      cases hp
      rcases h with h | h
      · exact absurd h1 (not_le.2 h)
      · exact absurd h2 (not_le.2 h)
    · intro h
      by_contra hc
      apply h
      have hc' : ¬ (q < (lo : ℚ) ∨ (hi : ℚ) < q) := hc
      rw [not_or, not_lt, not_lt] at hc'
      exact ⟨q, rfl, hc'.1, hc'.2⟩

theorem inside_or_beyond_or_nan (x : JSNum) (lo hi : ℤ) :
    inside x lo hi ∨ beyond x lo hi ∨ x = JSNum.nan := by
  cases x with
  | nan => exact Or.inr (Or.inr rfl)
  | posInf => exact Or.inr (Or.inl trivial)
  | negInf => exact Or.inr (Or.inl trivial)
  | fin q =>
    by_cases h : (lo : ℚ) ≤ q ∧ q ≤ (hi : ℚ)
    · exact Or.inl ⟨q, rfl, h⟩
    · right; left
      rcases not_and_or.1 h with h1 | h1
      · exact Or.inl (not_le.1 h1)
      · exact Or.inr (not_le.1 h1)

theorem ratingViolates_congr (r : Option JSNum) (P Q : JSNum → Prop)
    (h : ∀ x, P x ↔ Q x) : ratingViolates r P ↔ ratingViolates r Q := by
  constructor
  · rintro ⟨x, hx, hp⟩; exact ⟨x, hx, (h x).1 hp⟩
  · rintro ⟨x, hx, hq⟩; exact ⟨x, hx, (h x).2 hq⟩

/-- The table of the amended rules gives the same verdicts as the tests of the code. -/
theorem amendedRuleTable_eq (c : Candidate) : amendedRuleTable c = ruleTable c := by
  have h4 : decide (¬ isWhole c.year) = decide (c.year.isInteger = false) := by
    apply decide_eq_decide.2
    rw [isWhole_iff]; simp
  have h5 : decide (beyond c.year 1900 2100) = decide (outside c.year 1900 2100) :=
    decide_eq_decide.2 (beyond_iff_outside _ _ _)
  have h7 : decide (ratingViolates c.rating (fun x => ¬ isWhole x)) =
      decide (ratingViolates c.rating (fun x => x.isInteger = false)) :=
    decide_eq_decide.2 (ratingViolates_congr _ _ _ (fun x => by rw [isWhole_iff]; simp))
  have h8 : decide (ratingViolates c.rating (fun x => beyond x 1 10)) =
      decide (ratingViolates c.rating (fun x => outside x 1 10)) :=
    decide_eq_decide.2 (ratingViolates_congr _ _ _ (fun x => beyond_iff_outside x 1 10))
  unfold amendedRuleTable ruleTable
  rw [h4, h5, h7, h8]

theorem integerIn_iff (x : JSNum) (lo hi : ℤ) :
    integerIn x lo hi ↔
      x.isInteger = true ∧ (x.lt (JSNum.lit lo) || x.gt (JSNum.lit hi)) = false := by
  constructor
  · rintro ⟨z, rfl, h1, h2⟩
    refine ⟨(isInteger_iff _).2 ⟨z, rfl⟩, ?_⟩
    rw [Bool.or_eq_false_iff, Bool.eq_false_iff, Bool.eq_false_iff, Ne, Ne, lt_lit_int,
      gt_lit_int]
    omega
  · rintro ⟨h1, h2⟩
    obtain ⟨z, rfl⟩ := (isInteger_iff _).1 h1
    rw [Bool.or_eq_false_iff, Bool.eq_false_iff, Bool.eq_false_iff, Ne, Ne, lt_lit_int,
      gt_lit_int] at h2
    exact ⟨z, rfl, by omega, by omega⟩

theorem blankText_eq_false_iff (t : Option String) :
    blankText t = false ↔ nonEmptyAfterTrim t := by
  rw [← Bool.not_eq_true, blankText_iff]
  cases t with
  | none => simp [missingOrEmptyAfterTrim, nonEmptyAfterTrim]
  | some s => simp [missingOrEmptyAfterTrim, nonEmptyAfterTrim]

theorem falsy_eq_false_iff (t : Option String) : falsy t = false ↔ nonEmpty t := by
  cases t with
  | none => simp [falsy, nonEmpty]
  | some s => simp [falsy, nonEmpty]

/-- A candidate is accepted exactly when it meets the constraints the code checks. -/
theorem validateFormData_eq_nil_iff (c : Candidate) :
    validateFormData c = [] ↔ checkedConstraints c := by
  rw [validateFormData_eq_append]
  unfold checkedConstraints
  rw [← blankText_eq_false_iff, ← blankText_eq_false_iff, ← falsy_eq_false_iff,
    ← falsy_eq_false_iff, integerIn_iff]
  cases hr : c.rating with
  | none =>
    cases blankText c.title <;> cases falsy c.type <;> cases blankText c.genre <;>
      cases c.year.isInteger <;>
      cases (c.year.lt (JSNum.lit 1900) || c.year.gt (JSNum.lit 2100)) <;>
      cases falsy c.status <;> simp
  | some r =>
    have h : (∃ x, some r = some x ∧ integerIn x 1 10) ↔ integerIn r 1 10 := by
      constructor
      · rintro ⟨x, hx, h⟩; cases hx; exact h
      · intro h; exact ⟨r, rfl, h⟩
    rw [h, integerIn_iff]
    dsimp only
    cases blankText c.title <;> cases falsy c.type <;> cases blankText c.genre <;>
      cases c.year.isInteger <;>
      cases (c.year.lt (JSNum.lit 1900) || c.year.gt (JSNum.lit 2100)) <;>
      cases falsy c.status <;> cases r.isInteger <;>
      cases (r.lt (JSNum.lit 1) || r.gt (JSNum.lit 10)) <;> simp

/-! ## Validator: the claims -/

/-- C1 as stated fails: a `NaN` rating is supplied and is outside the interval from 1
to 10, so the stated rules keep "Rating must be between 1 and 10.", but the validator
does not emit it. -/
theorem nan_rating_breaks_stated_rules :
    ratingViolates nanRatingCandidate.rating (fun x => notWithin x 1 10) ∧
    keptMessages (statedRuleTable nanRatingCandidate) =
      ["Rating must be a whole number.", "Rating must be between 1 and 10."] ∧
    validateFormData nanRatingCandidate = ["Rating must be a whole number."] ∧
    validateFormData nanRatingCandidate ≠ keptMessages (statedRuleTable nanRatingCandidate) := by
  have h1 : keptMessages (statedRuleTable nanRatingCandidate) =
      ["Rating must be a whole number.", "Rating must be between 1 and 10."] := by decide
  have h2 : validateFormData nanRatingCandidate = ["Rating must be a whole number."] := by
    decide
  refine ⟨⟨JSNum.nan, rfl, ?_⟩, h1, h2, ?_⟩
  · rintro ⟨q, hq, _⟩
    cases hq
  · rw [h1, h2]
    decide

/-- C1 (amended): `validateFormData` returns exactly the messages of the violated
rules, in the fixed order of the eight rules, where the two range rules are the
comparisons "below the lower bound or above the upper bound" (which `NaN` does not
satisfy); a message is in the output if and only if its own rule is violated, and no
message occurs twice. -/
theorem validateFormData_reports_exactly_violated_rules (c : Candidate) :
    validateFormData c = keptMessages (amendedRuleTable c) ∧
    (validateFormData c).Nodup ∧
    ∀ p ∈ amendedRuleTable c, (p.2 ∈ validateFormData c ↔ p.1 = true) := by
  rw [amendedRuleTable_eq]
  refine ⟨validateFormData_eq_violatedMessages c, ?_, mem_validateFormData_iff c⟩
  rw [validateFormData_eq_violatedMessages]
  exact (filtered_table_facts _ _ _ _ _ _ _ _).1

/-- C1 (amended) at the candidate that violates every rule. -/
theorem validateFormData_reports_exactly_violated_rules_witness :
    validateFormData worstCandidate = keptMessages (amendedRuleTable worstCandidate) ∧
    (validateFormData worstCandidate).Nodup ∧
    ∀ p ∈ amendedRuleTable worstCandidate,
      (p.2 ∈ validateFormData worstCandidate ↔ p.1 = true) :=
  validateFormData_reports_exactly_violated_rules worstCandidate

/-- C2 as stated fails: a candidate with status `"Archived"` is accepted although
its status is none of the four fixed statuses. -/
theorem accepted_with_status_outside_fixed_set :
    validateFormData archivedCandidate = [] ∧ ¬ recordConstraints archivedCandidate := by
  refine ⟨by decide, ?_⟩
  rintro ⟨_, _, _, _, _, s, hs, h⟩
  simp only [archivedCandidate, Option.some.injEq] at h
  subst h
  revert hs
  decide

/-- C2 (amended): an accepted candidate has a title and a genre that are non-empty
after trimming, a non-empty type, an integer year in [1900, 2100], a rating that is
absent or an integer in [1, 10], and a non-empty status. -/
theorem accepted_satisfies_checked_constraints (c : Candidate)
    (h : validateFormData c = []) : checkedConstraints c :=
  (validateFormData_eq_nil_iff c).1 h

/-- C2 (amended) at a concrete accepted candidate. -/
theorem accepted_satisfies_checked_constraints_witness :
    validateFormData duneCandidate = [] ∧ checkedConstraints duneCandidate :=
  ⟨by decide, accepted_satisfies_checked_constraints duneCandidate (by decide)⟩

/-- With the four text fields passing and no rating, the output is the whole-number
message (if the year is not an integer) followed by the range message (if the year
is out of range). -/
theorem validateFormData_year_only (c : Candidate)
    (ht : nonEmptyAfterTrim c.title) (hty : nonEmpty c.type)
    (hg : nonEmptyAfterTrim c.genre) (hs : nonEmpty c.status) (hr : c.rating = none) :
    validateFormData c =
      (if c.year.isInteger then [] else ["Year must be a whole number."]) ++
      (if c.year.lt (JSNum.lit 1900) || c.year.gt (JSNum.lit 2100) then
        ["Year must be between 1900 and 2100."] else []) := by
  rw [validateFormData_eq_append, (blankText_eq_false_iff _).2 ht,
    (blankText_eq_false_iff _).2 hg, (falsy_eq_false_iff _).2 hty,
    (falsy_eq_false_iff _).2 hs, hr]
  simp

theorem inside_not_outside (x : JSNum) (lo hi : ℤ) (h : inside x lo hi) :
    (x.lt (JSNum.lit lo) || x.gt (JSNum.lit hi)) = false := by
  obtain ⟨q, rfl, h1, h2⟩ := h
  simp [JSNum.lt, JSNum.gt, JSNum.lit, h1, h2]

theorem nonEmpty_single_space : nonEmpty (some " ") := ⟨" ", rfl, by decide⟩

/-- C3 as stated fails in two ways.  With the year `NaN` (not an integer and not in
the range) and every text field filled in, the output is the whole-number message
alone, not the two messages.  With the non-empty title `" "`, the integer year 2021
and the other fields filled in, the output is "Title is required.", not empty. -/
theorem year_verdict_fails_for_nan_year :
    (nonEmpty nanYearCandidate.title ∧ nonEmpty nanYearCandidate.type ∧
      nonEmpty nanYearCandidate.genre ∧ nonEmpty nanYearCandidate.status ∧
      nanYearCandidate.rating = none ∧
      ¬ isWhole nanYearCandidate.year ∧ notWithin nanYearCandidate.year 1900 2100 ∧
      validateFormData nanYearCandidate = ["Year must be a whole number."] ∧
      ¬ statedYearVerdict nanYearCandidate) ∧
    (nonEmpty spaceTitleCandidate.title ∧ nonEmpty spaceTitleCandidate.type ∧
      nonEmpty spaceTitleCandidate.genre ∧ nonEmpty spaceTitleCandidate.status ∧
      spaceTitleCandidate.rating = none ∧
      isWhole spaceTitleCandidate.year ∧ inside spaceTitleCandidate.year 1900 2100 ∧
      validateFormData spaceTitleCandidate = ["Title is required."] ∧
      ¬ statedYearVerdict spaceTitleCandidate) := by
  have hv1 : validateFormData nanYearCandidate = ["Year must be a whole number."] := by
    decide
  have hw1 : ¬ isWhole nanYearCandidate.year := by rintro ⟨z, hz⟩; cases hz
  have hn1 : notWithin nanYearCandidate.year 1900 2100 := by rintro ⟨q, hq, _⟩; cases hq
  have hv2 : validateFormData spaceTitleCandidate = ["Title is required."] := by decide
  have hw2 : isWhole spaceTitleCandidate.year := ⟨2021, by simp [spaceTitleCandidate, duneCandidate]⟩
  have hi2 : inside spaceTitleCandidate.year 1900 2100 :=
    ⟨2021, rfl, by norm_num, by norm_num⟩
  refine ⟨⟨⟨_, rfl, by decide⟩, ⟨_, rfl, by decide⟩, ⟨_, rfl, by decide⟩,
      ⟨_, rfl, by decide⟩, rfl, hw1, hn1, hv1, ?_⟩,
    ⟨nonEmpty_single_space, ⟨_, rfl, by decide⟩, ⟨_, rfl, by decide⟩,
      ⟨_, rfl, by decide⟩, rfl, hw2, hi2, hv2, ?_⟩⟩
  · intro h
    have h0 := h.2.2.2 ⟨hw1, hn1⟩
    rw [hv1] at h0
    exact absurd h0 (by decide)
  · intro h
    have h0 := h.1 ⟨hw2, hi2⟩
    rw [hv2] at h0
    exact absurd h0 (by decide)

/-- C3 (amended): when title and genre are non-empty after trimming, type and status
are non-empty and the rating is absent, the output depends on the year alone, and
every year falls in one of the cases: empty for an integer in [1900, 2100]; the range
message alone for an integer below 1900 or above 2100; the whole-number message alone
for a non-integer in the range and for `NaN`; both messages, in that order, for a
non-integer below 1900 or above 2100. -/
theorem year_alone_decides_output (c : Candidate)
    (ht : nonEmptyAfterTrim c.title) (hty : nonEmpty c.type)
    (hg : nonEmptyAfterTrim c.genre) (hs : nonEmpty c.status) (hr : c.rating = none) :
    yearVerdict c ∧
    (inside c.year 1900 2100 ∨ beyond c.year 1900 2100 ∨ c.year = JSNum.nan) := by
  have h := validateFormData_year_only c ht hty hg hs hr
  have hnot : ∀ x : JSNum, ¬ isWhole x → x.isInteger = false := by
    intro x hx
    rw [isWhole_iff] at hx
    simpa using hx
  refine ⟨⟨?_, ?_, ?_, ?_⟩, inside_or_beyond_or_nan _ _ _⟩
  · rintro ⟨h1, h2⟩
    rw [h, (isWhole_iff _).1 h1, inside_not_outside _ _ _ h2]; rfl
  · rintro ⟨h1, h2⟩
    rw [h, (isWhole_iff _).1 h1, (outside_iff _ _ _).2 ((beyond_iff_outside _ _ _).1 h2)]; rfl
  · rintro ⟨h1, h2⟩
    have hcmp : (c.year.lt (JSNum.lit 1900) || c.year.gt (JSNum.lit 2100)) = false := by
      rcases h2 with h2 | h2
      · exact inside_not_outside _ _ _ h2
      · rw [h2]; rfl
    rw [h, hnot _ h1, hcmp]; rfl
  · rintro ⟨h1, h2⟩
    rw [h, hnot _ h1, (outside_iff _ _ _).2 ((beyond_iff_outside _ _ _).1 h2)]; rfl

theorem farYear_not_whole : ¬ isWhole farYearCandidate.year := by
  rintro ⟨z, hz⟩
  have hq : ((6001 : ℚ) / 2) = (z : ℚ) := by
    simpa [farYearCandidate, duneCandidate] using hz
  have hden := congrArg Rat.den hq
  rw [Rat.den_intCast] at hden
  norm_num at hden

theorem farYear_beyond : beyond farYearCandidate.year 1900 2100 := by
  show (6001 : ℚ) / 2 < ((1900 : ℤ) : ℚ) ∨ ((2100 : ℤ) : ℚ) < (6001 : ℚ) / 2
  norm_num

theorem nanYear_not_whole : ¬ isWhole nanYearCandidate.year := by
  rintro ⟨z, hz⟩
  cases hz

/-- C3 (amended) at the year `NaN`, where the output is the whole-number message
alone, and at the year 3000.5, where it is both messages. -/
theorem year_alone_decides_output_witness :
    (nonEmptyAfterTrim nanYearCandidate.title ∧ nonEmpty nanYearCandidate.type ∧
      nonEmptyAfterTrim nanYearCandidate.genre ∧ nonEmpty nanYearCandidate.status ∧
      nanYearCandidate.rating = none) ∧
    validateFormData nanYearCandidate = ["Year must be a whole number."] ∧
    validateFormData farYearCandidate =
      ["Year must be a whole number.", "Year must be between 1900 and 2100."] :=
  ⟨⟨⟨_, rfl, by decide⟩, ⟨_, rfl, by decide⟩, ⟨_, rfl, by decide⟩, ⟨_, rfl, by decide⟩, rfl⟩,
   (year_alone_decides_output nanYearCandidate ⟨_, rfl, by decide⟩ ⟨_, rfl, by decide⟩
      ⟨_, rfl, by decide⟩ ⟨_, rfl, by decide⟩ rfl).1.2.2.1 ⟨nanYear_not_whole, Or.inr rfl⟩,
   (year_alone_decides_output farYearCandidate ⟨_, rfl, by decide⟩ ⟨_, rfl, by decide⟩
      ⟨_, rfl, by decide⟩ ⟨_, rfl, by decide⟩ rfl).1.2.2.2 ⟨farYear_not_whole, farYear_beyond⟩⟩

/-- C4: an absent rating produces neither rating message, whatever the other fields
are; an integer rating outside [1, 10] produces the range message and not the
whole-number message; and replacing the rating of a candidate that passes by 0 makes
it rejected, while removing the rating leaves it accepted. -/
theorem rating_absent_versus_out_of_range (c : Candidate) :
    (c.rating = none →
      "Rating must be a whole number." ∉ validateFormData c ∧
      "Rating must be between 1 and 10." ∉ validateFormData c) ∧
    (∀ r, c.rating = some r → r.isInteger = true → outside r 1 10 →
      "Rating must be between 1 and 10." ∈ validateFormData c ∧
      "Rating must be a whole number." ∉ validateFormData c) ∧
    (validateFormData c = [] →
      validateFormData { c with rating := none } = [] ∧
      "Rating must be between 1 and 10." ∈
        validateFormData { c with rating := some (JSNum.lit 0) } ∧
      "Rating must be between 1 and 10." ∈
        validateFormData { c with rating := some (JSNum.lit 11) }) := by
  refine ⟨?_, ?_, ?_⟩
  · intro h
    rw [whole_rating_mem_iff, range_rating_mem_iff, h]
    exact ⟨ratingViolates_none _, ratingViolates_none _⟩
  · intro r h hi ho
    rw [whole_rating_mem_iff, range_rating_mem_iff, h]
    refine ⟨⟨r, rfl, ho⟩, ?_⟩
    rintro ⟨x, hx, hx2⟩
    cases hx
    rw [hi] at hx2
    cases hx2
  · intro h
    have hc := (validateFormData_eq_nil_iff c).1 h
    refine ⟨?_, ?_, ?_⟩
    · rw [validateFormData_eq_nil_iff]
      exact ⟨hc.1, hc.2.1, hc.2.2.1, hc.2.2.2.1, Or.inl rfl, hc.2.2.2.2.2⟩
    · rw [range_rating_mem_iff]
      exact ⟨_, rfl, Or.inl (by decide)⟩
    · rw [range_rating_mem_iff]
      exact ⟨_, rfl, Or.inr (by decide)⟩

/-- C4 at a candidate rated 11. -/
theorem rating_absent_versus_out_of_range_witness :
    (elevenCandidate.rating = some (JSNum.fin 11) ∧ (JSNum.fin 11).isInteger = true ∧
      outside (JSNum.fin 11) 1 10) ∧
    "Rating must be between 1 and 10." ∈ validateFormData elevenCandidate ∧
    "Rating must be a whole number." ∉ validateFormData elevenCandidate :=
  ⟨⟨rfl, by decide, by decide⟩,
   (rating_absent_versus_out_of_range elevenCandidate).2.1 (JSNum.fin 11) rfl
    (by decide) (by decide)⟩

/-- C5 as stated fails: the candidate violating all eight rules gets eight messages,
more than seven. -/
theorem eight_messages_possible :
    validateFormData worstCandidate =
      ["Title is required.", "Type is required.", "Genre is required.",
       "Year must be a whole number.", "Year must be between 1900 and 2100.",
       "Status is required.", "Rating must be a whole number.",
       "Rating must be between 1 and 10."] ∧
    ¬ (validateFormData worstCandidate).length ≤ 7 := by
  have h : validateFormData worstCandidate =
      ["Title is required.", "Type is required.", "Genre is required.",
       "Year must be a whole number.", "Year must be between 1900 and 2100.",
       "Status is required.", "Rating must be a whole number.",
       "Rating must be between 1 and 10."] := by
    rw [validateFormData_eq_append]
    norm_num [worstCandidate, blankText, falsy, JSNum.isInteger, JSNum.lt, JSNum.gt,
      JSNum.lit, Rat.isInt]
    decide
  refine ⟨h, ?_⟩
  rw [h]
  decide

/-- C5 (amended): the list returned by `validateFormData` has at most 8 messages. -/
theorem validateFormData_length_le_eight (c : Candidate) :
    (validateFormData c).length ≤ 8 := by
  rw [validateFormData_eq_violatedMessages]
  unfold violatedMessages
  rw [List.length_map]
  exact le_trans (List.length_filter_le _ _) (le_of_eq rfl)

/-- C10 as stated fails: with a `NaN` rating only the whole-number message is
emitted; the range message is not. -/
theorem nan_rating_emits_no_range_message :
    validateFormData nanRatingCandidate = ["Rating must be a whole number."] ∧
    ¬ ("Rating must be a whole number." ∈ validateFormData nanRatingCandidate ∧
       "Rating must be between 1 and 10." ∈ validateFormData nanRatingCandidate) := by
  have h : validateFormData nanRatingCandidate = ["Rating must be a whole number."] := by
    decide
  refine ⟨h, ?_⟩
  rw [h]
  decide

/-- C10 (amended): for every candidate whose rating is `NaN`, the validator emits
"Rating must be a whole number." and does not emit "Rating must be between 1 and
10.". -/
theorem nan_rating_whole_message_only (c : Candidate) (h : c.rating = some JSNum.nan) :
    "Rating must be a whole number." ∈ validateFormData c ∧
    "Rating must be between 1 and 10." ∉ validateFormData c := by
  rw [whole_rating_mem_iff, range_rating_mem_iff, h]
  refine ⟨⟨_, rfl, rfl⟩, ?_⟩
  rintro ⟨x, hx, hx2⟩
  cases hx
  revert hx2
  decide

/-- C10 (amended) at a concrete candidate. -/
theorem nan_rating_whole_message_only_witness :
    nanRatingCandidate.rating = some JSNum.nan ∧
    "Rating must be a whole number." ∈ validateFormData nanRatingCandidate ∧
    "Rating must be between 1 and 10." ∉ validateFormData nanRatingCandidate :=
  ⟨rfl, nan_rating_whole_message_only nanRatingCandidate rfl⟩

/-! ## Double-precision rounding -/

theorem roundHalfEven_intCast (z : ℤ) : roundHalfEven (z : ℚ) = z := by
  simp [roundHalfEven]

theorem roundHalfEven_sub_le (x : ℚ) : |(roundHalfEven x : ℚ) - x| ≤ 1 / 2 := by
  have h1 : (⌊x⌋ : ℚ) ≤ x := Int.floor_le x
  have h2 : x < (⌊x⌋ : ℚ) + 1 := Int.lt_floor_add_one x
  unfold roundHalfEven
  simp only
  split_ifs with a b c
  · rw [abs_le]; constructor <;> linarith
  · rw [abs_le]; push_cast; constructor <;> linarith
  · rw [abs_le]; constructor <;> linarith
  · rw [abs_le]; push_cast; constructor <;> linarith

theorem roundHalfEven_nonneg (x : ℚ) (hx : 0 ≤ x) : 0 ≤ roundHalfEven x := by
  have h0 : 0 ≤ ⌊x⌋ := Int.floor_nonneg.2 hx
  unfold roundHalfEven
  simp only
  split_ifs <;> omega

theorem two_zpow_pos (k : ℤ) : (0 : ℚ) < (2 : ℚ) ^ k := zpow_pos (by norm_num) k

/-- The binary exponent of a positive rational is pinned by the powers of two around
it. -/
theorem log_two_eq (a : ℚ) (e : ℤ) (h1 : (2 : ℚ) ^ e ≤ a) (h2 : a < (2 : ℚ) ^ (e + 1)) :
    Int.log 2 a = e := by
  have ha : 0 < a := lt_of_lt_of_le (two_zpow_pos e) h1
  have hb : (1 : ℕ) < 2 := by norm_num
  have l1 : e ≤ Int.log 2 a := by
    rw [← Int.zpow_le_iff_le_log hb ha]; simpa using h1
  have l2 : Int.log 2 a < e + 1 := by
    rw [← Int.lt_zpow_iff_log_lt hb ha]; simpa using h2
  omega

theorem zpow_log_two_le (a : ℚ) (ha : 0 < a) : (2 : ℚ) ^ Int.log 2 a ≤ a := by
  have := Int.zpow_log_le_self (b := 2) (by norm_num) ha
  simpa using this

theorem lt_zpow_log_two_succ (a : ℚ) : a < (2 : ℚ) ^ (Int.log 2 a + 1) := by
  have := Int.lt_zpow_succ_log_self (b := 2) (by norm_num) a
  simpa using this

/-- Unfolding `roundToDouble` at a positive value whose exponent is known. -/
theorem roundToDouble_pos (q : ℚ) (e : ℤ) (h1 : (2 : ℚ) ^ e ≤ q) (h2 : q < (2 : ℚ) ^ (e + 1))
    (he : -1022 ≤ e) :
    roundToDouble q =
      if (2 : ℚ) ^ (1024 : ℤ) ≤ (roundHalfEven (q / (2 : ℚ) ^ (e - 52)) : ℚ) * (2 : ℚ) ^ (e - 52)
      then JSNum.posInf
      else JSNum.fin ((roundHalfEven (q / (2 : ℚ) ^ (e - 52)) : ℚ) * (2 : ℚ) ^ (e - 52)) := by
  have hq : 0 < q := lt_of_lt_of_le (two_zpow_pos e) h1
  have hlog : Int.log 2 q = e := log_two_eq q e h1 h2
  unfold roundToDouble
  simp only [abs_of_pos hq, hlog, max_eq_left he, if_neg (ne_of_gt hq),
    if_neg (not_lt.2 hq.le)]

theorem roundToDouble_neg (q : ℚ) : roundToDouble (-q) =
    match roundToDouble q with
    | JSNum.fin v => JSNum.fin (-v)
    | JSNum.posInf => JSNum.negInf
    | JSNum.negInf => JSNum.posInf
    | JSNum.nan => JSNum.nan := by
  unfold roundToDouble
  by_cases h0 : q = 0
  · simp [h0]
  · have h0' : ¬ -q = 0 := by simpa using h0
    simp only [if_neg h0, if_neg h0', abs_neg]
    rcases lt_or_gt_of_ne h0 with hlt | hgt
    · have h3 : ¬ (-q < 0) := by linarith
      simp only [if_pos hlt, if_neg h3]
      split_ifs <;> simp
    · have h3 : -q < 0 := by linarith
      have h4 : ¬ q < 0 := by linarith
      simp only [if_pos h3, if_neg h4]
      split_ifs <;> simp

/-- Unfolding `roundToDouble` at a positive value. -/
theorem roundToDouble_of_pos (q : ℚ) (hq : 0 < q) :
    roundToDouble q =
      if (2 : ℚ) ^ (1024 : ℤ) ≤
          (roundHalfEven (q / (2 : ℚ) ^ (max (Int.log 2 q) (-1022) - 52)) : ℚ) *
            (2 : ℚ) ^ (max (Int.log 2 q) (-1022) - 52)
      then JSNum.posInf
      else JSNum.fin ((roundHalfEven (q / (2 : ℚ) ^ (max (Int.log 2 q) (-1022) - 52)) : ℚ) *
            (2 : ℚ) ^ (max (Int.log 2 q) (-1022) - 52)) := by
  unfold roundToDouble
  simp only [abs_of_pos hq, if_neg (ne_of_gt hq), if_neg (not_lt.2 hq.le)]

/-- A positive value with a significand below `2 ^ 53` and an exponent in the binary64
range is a double: rounding leaves it unchanged. -/
theorem roundToDouble_dyadic_pos (m k : ℤ) (hm0 : 0 < m) (hm : m < 2 ^ 53)
    (hk1 : -1074 ≤ k) (hk2 : k ≤ 971) :
    roundToDouble ((m : ℚ) * (2 : ℚ) ^ k) = JSNum.fin ((m : ℚ) * (2 : ℚ) ^ k) := by
  have h2 : (2 : ℚ) ≠ 0 := by norm_num
  have hmq : (0 : ℚ) < (m : ℚ) := by exact_mod_cast hm0
  have hq : 0 < (m : ℚ) * (2 : ℚ) ^ k := mul_pos hmq (two_zpow_pos k)
  have hlt : (m : ℚ) * (2 : ℚ) ^ k < (2 : ℚ) ^ (53 + k) := by
    rw [zpow_add₀ h2]
    have : (m : ℚ) < (2 : ℚ) ^ (53 : ℤ) := by
      have h' : (m : ℚ) < ((2 ^ 53 : ℤ) : ℚ) := by exact_mod_cast hm
      have e : ((2 ^ 53 : ℤ) : ℚ) = (2 : ℚ) ^ (53 : ℤ) := by norm_num
      rw [← e]; exact h'
    exact mul_lt_mul_of_pos_right this (two_zpow_pos k)
  have hlog : Int.log 2 ((m : ℚ) * (2 : ℚ) ^ k) < 53 + k := by
    rw [← Int.lt_zpow_iff_log_lt (by norm_num) hq]; simpa using hlt
  rw [roundToDouble_of_pos _ hq]
  generalize he : max (Int.log 2 ((m : ℚ) * (2 : ℚ) ^ k)) (-1022) = e
  have hek : e - 52 ≤ k := by
    rw [← he]
    have := max_le (a := Int.log 2 ((m : ℚ) * (2 : ℚ) ^ k)) (b := -1022) (c := 52 + k)
      (by omega) (by omega)
    omega
  obtain ⟨n, hn⟩ : ∃ n : ℕ, k - (e - 52) = n := Int.eq_ofNat_of_zero_le (by omega)
  have hdiv : (m : ℚ) * (2 : ℚ) ^ k / (2 : ℚ) ^ (e - 52) = ((m * 2 ^ n : ℤ) : ℚ) := by
    rw [mul_div_assoc, ← zpow_sub₀ h2, hn, zpow_natCast]
    push_cast
    rfl
  have hv : ((m * 2 ^ n : ℤ) : ℚ) * (2 : ℚ) ^ (e - 52) = (m : ℚ) * (2 : ℚ) ^ k := by
    rw [← hdiv, div_mul_cancel₀ _ (ne_of_gt (two_zpow_pos _))]
  rw [hdiv, roundHalfEven_intCast, hv]
  have hbig : ¬ (2 : ℚ) ^ (1024 : ℤ) ≤ (m : ℚ) * (2 : ℚ) ^ k := by
    rw [not_le]
    refine lt_of_lt_of_le hlt ?_
    exact zpow_le_zpow_right₀ (by norm_num) (by omega)
  rw [if_neg hbig]

/-- An integer of magnitude at most `2 ^ 53` is a double. -/
theorem roundToDouble_int (z : ℤ) (hz : |z| ≤ 2 ^ 53) :
    roundToDouble (z : ℚ) = JSNum.fin (z : ℚ) := by
  have key : ∀ n : ℤ, 0 < n → n ≤ 2 ^ 53 → roundToDouble (n : ℚ) = JSNum.fin (n : ℚ) := by
    intro n h0 h1
    rcases lt_or_eq_of_le h1 with h | h
    · have := roundToDouble_dyadic_pos n 0 h0 h (by norm_num) (by norm_num)
      simpa using this
    · have := roundToDouble_dyadic_pos 1 53 (by norm_num) (by norm_num) (by norm_num)
        (by norm_num)
      have e : ((2 ^ 53 : ℤ) : ℚ) = ((1 : ℤ) : ℚ) * (2 : ℚ) ^ (53 : ℤ) := by norm_num
      rw [h, e]
      exact this
  rcases lt_trichotomy z 0 with h | h | h
  · have hz' : -z ≤ 2 ^ 53 := by rw [abs_of_neg h] at hz; exact hz
    have := key (-z) (by omega) hz'
    have e : (z : ℚ) = -((-z : ℤ) : ℚ) := by push_cast; ring
    rw [e, roundToDouble_neg, this]
  · subst h; simp [roundToDouble]
  · have hz' : z ≤ 2 ^ 53 := by rw [abs_of_pos h] at hz; exact hz
    exact key z h hz'

/-- In the normal range rounding moves a value by at most its `2 ^ 53`-th part. -/
theorem roundToDouble_error (q : ℚ) (h1 : (2 : ℚ) ^ (-1022 : ℤ) ≤ |q|)
    (h2 : |q| < (2 : ℚ) ^ (1023 : ℤ)) :
    ∃ v, roundToDouble q = JSNum.fin v ∧ |v - q| ≤ |q| / 2 ^ 53 := by
  have key : ∀ a : ℚ, (2 : ℚ) ^ (-1022 : ℤ) ≤ a → a < (2 : ℚ) ^ (1023 : ℤ) →
      ∃ v, roundToDouble a = JSNum.fin v ∧ |v - a| ≤ a / 2 ^ 53 := by
    intro a ha1 ha2
    have h2' : (2 : ℚ) ≠ 0 := by norm_num
    have ha : 0 < a := lt_of_lt_of_le (two_zpow_pos _) ha1
    have hb : (1 : ℕ) < 2 := by norm_num
    have l1 : -1022 ≤ Int.log 2 a := by
      rw [← Int.zpow_le_iff_le_log hb ha]; simpa using ha1
    have l2 : Int.log 2 a < 1023 := by
      rw [← Int.lt_zpow_iff_log_lt hb ha]; simpa using ha2
    have hlo := zpow_log_two_le a ha
    have hhi := lt_zpow_log_two_succ a
    rw [roundToDouble_pos a (Int.log 2 a) hlo hhi l1]
    generalize Int.log 2 a = e at *
    have hu : 0 < (2 : ℚ) ^ (e - 52) := two_zpow_pos _
    have hr := roundHalfEven_sub_le (a / (2 : ℚ) ^ (e - 52))
    generalize (roundHalfEven (a / (2 : ℚ) ^ (e - 52)) : ℚ) = r at *
    have herr : |r * (2 : ℚ) ^ (e - 52) - a| ≤ (2 : ℚ) ^ (e - 52) / 2 := by
      have e1 : r * (2 : ℚ) ^ (e - 52) - a = (r - a / (2 : ℚ) ^ (e - 52)) * (2 : ℚ) ^ (e - 52) := by
        field_simp
      rw [e1, abs_mul, abs_of_pos hu]
      calc |r - a / (2 : ℚ) ^ (e - 52)| * (2 : ℚ) ^ (e - 52)
          ≤ 1 / 2 * (2 : ℚ) ^ (e - 52) := mul_le_mul_of_nonneg_right hr hu.le
        _ = (2 : ℚ) ^ (e - 52) / 2 := by ring
    have hu2 : (2 : ℚ) ^ (e - 52) / 2 = (2 : ℚ) ^ e / 2 ^ 53 := by
      rw [zpow_sub₀ h2']
      norm_num
      ring
    have hbound : (2 : ℚ) ^ e / 2 ^ 53 ≤ a / 2 ^ 53 :=
      div_le_div_of_nonneg_right hlo (by norm_num)
    have hfin : ¬ (2 : ℚ) ^ (1024 : ℤ) ≤ r * (2 : ℚ) ^ (e - 52) := by
      rw [not_le]
      have hle : r * (2 : ℚ) ^ (e - 52) ≤ a + a / 2 ^ 53 := by
        have := (abs_le.1 herr).2
        linarith
      have : a + a / 2 ^ 53 < (2 : ℚ) ^ (1024 : ℤ) := by
        have e1024 : (2 : ℚ) ^ (1024 : ℤ) = 2 * (2 : ℚ) ^ (1023 : ℤ) := by
          rw [show (1024 : ℤ) = 1 + 1023 by norm_num, zpow_add₀ h2']; norm_num
        rw [e1024]
        have : a / 2 ^ 53 ≤ a := div_le_self ha.le (by norm_num)
        linarith
      exact lt_of_le_of_lt hle this
    rw [if_neg hfin]
    exact ⟨_, rfl, by rw [hu2] at herr; exact le_trans herr hbound⟩
  rcases lt_or_ge q 0 with h | h
  · rw [abs_of_neg h] at h1 h2 ⊢
    obtain ⟨v, hv1, hv2⟩ := key (-q) h1 h2
    refine ⟨-v, ?_, ?_⟩
    · have := roundToDouble_neg (-q)
      rw [neg_neg, hv1] at this
      exact this
    · have e : -v - q = -(v - -q) := by ring
      rw [e, abs_neg]; exact hv2
  · rw [abs_of_nonneg h] at h1 h2 ⊢
    exact key q h1 h2

/-- Below the normal range rounding stays below `2 ^ (-1021)`. -/
theorem roundToDouble_small (q : ℚ) (h : |q| < (2 : ℚ) ^ (-1022 : ℤ)) :
    ∃ v, roundToDouble q = JSNum.fin v ∧ |v| ≤ (2 : ℚ) ^ (-1021 : ℤ) := by
  have h2' : (2 : ℚ) ≠ 0 := by norm_num
  have key : ∀ a : ℚ, 0 < a → a < (2 : ℚ) ^ (-1022 : ℤ) →
      ∃ v, roundToDouble a = JSNum.fin v ∧ |v| ≤ (2 : ℚ) ^ (-1021 : ℤ) := by
    intro a ha ha2
    have hb : (1 : ℕ) < 2 := by norm_num
    have l2 : Int.log 2 a < -1022 := by
      rw [← Int.lt_zpow_iff_log_lt hb ha]; simpa using ha2
    rw [roundToDouble_of_pos a ha, max_eq_right (le_of_lt l2)]
    have hu : 0 < (2 : ℚ) ^ ((-1022 : ℤ) - 52) := two_zpow_pos _
    have hr := roundHalfEven_sub_le (a / (2 : ℚ) ^ ((-1022 : ℤ) - 52))
    have hr0 : (0 : ℚ) ≤ (roundHalfEven (a / (2 : ℚ) ^ ((-1022 : ℤ) - 52)) : ℚ) := by
      exact_mod_cast roundHalfEven_nonneg _ (div_nonneg ha.le hu.le)
    generalize (roundHalfEven (a / (2 : ℚ) ^ ((-1022 : ℤ) - 52)) : ℚ) = r at *
    have herr : |r * (2 : ℚ) ^ ((-1022 : ℤ) - 52) - a| ≤ (2 : ℚ) ^ ((-1022 : ℤ) - 52) / 2 := by
      have e1 : r * (2 : ℚ) ^ ((-1022 : ℤ) - 52) - a =
          (r - a / (2 : ℚ) ^ ((-1022 : ℤ) - 52)) * (2 : ℚ) ^ ((-1022 : ℤ) - 52) := by
        field_simp
      rw [e1, abs_mul, abs_of_pos hu]
      calc |r - a / (2 : ℚ) ^ ((-1022 : ℤ) - 52)| * (2 : ℚ) ^ ((-1022 : ℤ) - 52)
          ≤ 1 / 2 * (2 : ℚ) ^ ((-1022 : ℤ) - 52) := mul_le_mul_of_nonneg_right hr hu.le
        _ = (2 : ℚ) ^ ((-1022 : ℤ) - 52) / 2 := by ring
    have hule : (2 : ℚ) ^ ((-1022 : ℤ) - 52) / 2 ≤ (2 : ℚ) ^ (-1022 : ℤ) := by
      have : (2 : ℚ) ^ ((-1022 : ℤ) - 52) ≤ (2 : ℚ) ^ (-1022 : ℤ) :=
        zpow_le_zpow_right₀ (by norm_num) (by norm_num)
      have hp := two_zpow_pos ((-1022 : ℤ) - 52)
      linarith
    have e1021 : (2 : ℚ) ^ (-1021 : ℤ) = 2 * (2 : ℚ) ^ (-1022 : ℤ) := by
      rw [show (-1021 : ℤ) = 1 + -1022 by norm_num, zpow_add₀ h2']; norm_num
    have hv : r * (2 : ℚ) ^ ((-1022 : ℤ) - 52) ≤ (2 : ℚ) ^ (-1021 : ℤ) := by
      have := (abs_le.1 herr).2
      rw [e1021]
      generalize (2 : ℚ) ^ ((-1022 : ℤ) - 52) = U at *
      generalize (2 : ℚ) ^ (-1022 : ℤ) = P at *
      linarith
    have hfin : ¬ (2 : ℚ) ^ (1024 : ℤ) ≤ r * (2 : ℚ) ^ ((-1022 : ℤ) - 52) := by
      rw [not_le]
      refine lt_of_le_of_lt hv ?_
      exact zpow_lt_zpow_right₀ (by norm_num) (by norm_num)
    rw [if_neg hfin]
    exact ⟨_, rfl, by rw [abs_of_nonneg (mul_nonneg hr0 hu.le)]; exact hv⟩
  rcases lt_trichotomy q 0 with h0 | h0 | h0
  · rw [abs_of_neg h0] at h
    obtain ⟨v, hv1, hv2⟩ := key (-q) (by linarith) h
    refine ⟨-v, ?_, by rw [abs_neg]; exact hv2⟩
    have := roundToDouble_neg (-q)
    rw [neg_neg, hv1] at this
    exact this
  · subst h0
    exact ⟨0, by simp [roundToDouble], by rw [abs_zero]; exact (two_zpow_pos _).le⟩
  · rw [abs_of_pos h0] at h
    exact key q h0 h

/-- The discreteness step: a magnitude `w` within the `2 ^ 53`-th part of `A / n`,
with `20 * A < 2 ^ 53`, rounds to the same tenth as `A / n` up to a tie. -/
theorem tenths_close (A : ℤ) (n : ℕ) (w : ℚ) (hn : 0 < n) (hA0 : 0 ≤ A)
    (hA : 20 * A < 2 ^ 53) (herr : |w - (A : ℚ) / n| ≤ (A : ℚ) / n / 2 ^ 53) :
    |((⌊10 * w + 1 / 2⌋ : ℤ) : ℚ) / 10 - (A : ℚ) / n| ≤ 1 / 20 := by
  have hk : (0 : ℚ) < (n : ℚ) := by exact_mod_cast hn
  have ha0 : (0 : ℚ) ≤ (A : ℚ) := by exact_mod_cast hA0
  have haq : 20 * (A : ℚ) < 2 ^ 53 := by exact_mod_cast hA
  have hx1 : ((⌊10 * w + 1 / 2⌋ : ℤ) : ℚ) ≤ 10 * w + 1 / 2 := Int.floor_le _
  have hx2 : 10 * w + 1 / 2 < ((⌊10 * w + 1 / 2⌋ : ℤ) : ℚ) + 1 := Int.lt_floor_add_one _
  generalize ⌊10 * w + 1 / 2⌋ = N at *
  -- the error, multiplied by `n`
  have hwk : |w * n - A| ≤ (A : ℚ) / 2 ^ 53 := by
    have e1 : w * n - A = (w - (A : ℚ) / n) * n := by field_simp
    rw [e1, abs_mul, abs_of_pos hk]
    calc |w - (A : ℚ) / n| * n ≤ (A : ℚ) / n / 2 ^ 53 * n :=
          mul_le_mul_of_nonneg_right herr hk.le
      _ = (A : ℚ) / 2 ^ 53 := by field_simp; ring
  have hsmall : (A : ℚ) / 2 ^ 53 < 1 / 20 := by
    rw [div_lt_iff₀ (by norm_num)]
    linarith
  obtain ⟨hw1, hw2⟩ := abs_le.1 hwk
  have hxk1 : (N : ℚ) * n ≤ (10 * w + 1 / 2) * n := mul_le_mul_of_nonneg_right hx1 hk.le
  have hxk2 : (10 * w + 1 / 2) * n < ((N : ℚ) + 1) * n := mul_lt_mul_of_pos_right hx2 hk
  -- the two integer inequalities
  have hi1 : 2 * N * n - 20 * A ≤ n := by
    by_contra hc
    have hc' : (n : ℤ) + 1 ≤ 2 * N * n - 20 * A := by omega
    have hq : ((n : ℤ) : ℚ) + 1 ≤ 2 * (N : ℚ) * ((n : ℤ) : ℚ) - 20 * (A : ℚ) := by
      exact_mod_cast hc'
    simp only [Int.cast_natCast] at hq
    nlinarith
  have hi2 : 20 * A - 2 * N * n ≤ n := by
    by_contra hc
    have hc' : (n : ℤ) + 1 ≤ 20 * A - 2 * N * n := by omega
    have hq : ((n : ℤ) : ℚ) + 1 ≤ 20 * (A : ℚ) - 2 * (N : ℚ) * ((n : ℤ) : ℚ) := by
      exact_mod_cast hc'
    simp only [Int.cast_natCast] at hq
    nlinarith
  have hq1 : 2 * (N : ℚ) * (n : ℚ) - 20 * (A : ℚ) ≤ (n : ℚ) := by exact_mod_cast hi1
  have hq2 : 20 * (A : ℚ) - 2 * (N : ℚ) * (n : ℚ) ≤ (n : ℚ) := by exact_mod_cast hi2
  have e : (N : ℚ) / 10 - (A : ℚ) / n = (2 * (N : ℚ) * n - 20 * A) / (20 * n) := by
    field_simp; ring
  rw [e, abs_le]
  constructor
  · rw [le_div_iff₀ (by positivity)]; linarith
  · rw [div_le_iff₀ (by positivity)]; linarith

/-- The text of a correctly rounded quotient `S / n` is a one-digit numeral within
`1 / 20` of the exact quotient, as long as `20 * |S| < 2 ^ 53`. -/
theorem toFixed1_quotient_close (S : ℤ) (n : ℕ) (hn : 0 < n) (hS : 20 * |S| < 2 ^ 53) :
    ∃ neg t, toFixed1 (roundToDouble ((S : ℚ) / n)) = AvgText.fixed1 neg t ∧
      |fixed1Value neg t - (S : ℚ) / n| ≤ 1 / 20 := by
  have hk : (0 : ℚ) < (n : ℚ) := by exact_mod_cast hn
  have hk1 : (1 : ℚ) ≤ (n : ℚ) := by exact_mod_cast hn
  have hmabs : |(S : ℚ) / n| = ((|S| : ℤ) : ℚ) / n := by
    rw [abs_div, abs_of_pos hk, Int.cast_abs]
  have hSq : 20 * ((|S| : ℤ) : ℚ) < 2 ^ 53 := by exact_mod_cast hS
  have hS0 : (0 : ℚ) ≤ ((|S| : ℤ) : ℚ) := by exact_mod_cast abs_nonneg S
  have hmle : |(S : ℚ) / n| ≤ ((|S| : ℤ) : ℚ) := by
    rw [hmabs]; exact div_le_self hS0 hk1
  generalize hm : (S : ℚ) / n = m at *
  by_cases hsm : |m| < (2 : ℚ) ^ (-1022 : ℤ)
  · obtain ⟨v, hv1, hv2⟩ := roundToDouble_small m hsm
    have hp5 : (2 : ℚ) ^ (-1021 : ℤ) ≤ (2 : ℚ) ^ (-5 : ℤ) :=
      zpow_le_zpow_right₀ (by norm_num) (by norm_num)
    have hp6 : (2 : ℚ) ^ (-1022 : ℤ) ≤ (2 : ℚ) ^ (-5 : ℤ) :=
      zpow_le_zpow_right₀ (by norm_num) (by norm_num)
    have h32 : (2 : ℚ) ^ (-5 : ℤ) = 1 / 32 := by norm_num [zpow_neg]
    rw [h32] at hp5 hp6
    have hv3 : |v| ≤ 1 / 32 := le_trans hv2 hp5
    have hv0 : 0 ≤ |v| := abs_nonneg v
    have hfl : ⌊10 * |v| + 1 / 2⌋ = 0 := by
      rw [Int.floor_eq_iff]
      constructor
      · push_cast; linarith
      · push_cast; linarith
    refine ⟨decide (v < 0), 0, ?_, ?_⟩
    · rw [hv1]
      unfold toFixed1
      have hnb : ¬ (10 : ℚ) ^ 21 ≤ |v| := by
        rw [not_le]
        refine lt_of_le_of_lt hv3 ?_
        norm_num
      simp only [if_neg hnb, hfl, Int.toNat_zero]
    · have : fixed1Value (decide (v < 0)) 0 = 0 := by simp [fixed1Value]
      rw [this, zero_sub, abs_neg]
      exact le_of_lt (lt_of_lt_of_le hsm (le_trans hp6 (by norm_num)))
  · rw [not_lt] at hsm
    have hbig : |m| < (2 : ℚ) ^ (1023 : ℤ) := by
      have h53 : ((|S| : ℤ) : ℚ) < (2 : ℚ) ^ (53 : ℤ) := by
        have e : (2 : ℚ) ^ (53 : ℤ) = 2 ^ 53 := by norm_num
        rw [e]; linarith
      have : (2 : ℚ) ^ (53 : ℤ) ≤ (2 : ℚ) ^ (1023 : ℤ) :=
        zpow_le_zpow_right₀ (by norm_num) (by norm_num)
      linarith
    obtain ⟨v, hv1, hv2⟩ := roundToDouble_error m hsm hbig
    have hm0 : 0 ≤ |m| := abs_nonneg m
    have hdiv : |m| / 2 ^ 53 ≤ |m| := div_le_self hm0 (by norm_num)
    have hdiv2 : |m| / 2 ^ 53 < |m| ∨ m = 0 := by
      rcases eq_or_ne m 0 with h0 | h0
      · exact Or.inr h0
      · left
        exact div_lt_self (abs_pos.2 h0) (by norm_num)
    have hmpos : m ≠ 0 := by
      intro h0
      rw [h0, abs_zero] at hsm
      exact absurd hsm (not_le.2 (two_zpow_pos _))
    have hlt : |m| / 2 ^ 53 < |m| := hdiv2.resolve_right hmpos
    have hvabs : |(|v| - |m|)| ≤ |m| / 2 ^ 53 := le_trans (abs_abs_sub_abs_le_abs_sub v m) hv2
    have hclose := tenths_close |S| n |v| hn (abs_nonneg S) hS (by rw [← hmabs]; exact hvabs)
    rw [← hmabs] at hclose
    have hfl0 : 0 ≤ ⌊10 * |v| + 1 / 2⌋ := by
      apply Int.floor_nonneg.2
      have := abs_nonneg v
      linarith
    have hcast : ((⌊10 * |v| + 1 / 2⌋.toNat : ℕ) : ℚ) = ((⌊10 * |v| + 1 / 2⌋ : ℤ) : ℚ) := by
      have := Int.toNat_of_nonneg hfl0
      exact_mod_cast congrArg (fun z : ℤ => (z : ℚ)) this
    refine ⟨decide (v < 0), ⌊10 * |v| + 1 / 2⌋.toNat, ?_, ?_⟩
    · rw [hv1]
      unfold toFixed1
      have hnb : ¬ (10 : ℚ) ^ 21 ≤ |v| := by
        rw [not_le]
        have h1 : |v| ≤ |m| + |m| / 2 ^ 53 := by
          have := (abs_le.1 hvabs).2
          linarith
        have h2 : (2 : ℚ) ^ 53 < 10 ^ 21 := by norm_num
        linarith
      simp only [if_neg hnb]
    · unfold fixed1Value
      rw [hcast]
      obtain ⟨hl, hu⟩ := abs_le.1 hv2
      by_cases hneg : v < 0
      · have hmneg : m < 0 := by
          by_contra hc
          rw [not_lt] at hc
          rw [abs_of_nonneg hc] at hlt hu hl
          linarith
        simp only [hneg, decide_True, if_true]
        rw [abs_of_neg hmneg] at hclose
        have e : -1 * (((⌊10 * |v| + 1 / 2⌋ : ℤ) : ℚ) / 10) - m =
            -((((⌊10 * |v| + 1 / 2⌋ : ℤ) : ℚ) / 10) - -m) := by ring
        rw [e, abs_neg]
        exact hclose
      · have hmpos' : 0 < m := by
          by_contra hc
          rw [not_lt] at hc
          have hm' : m < 0 := lt_of_le_of_ne hc hmpos
          rw [abs_of_neg hm'] at hlt hu hl
          rw [not_lt] at hneg
          linarith
        simp only [hneg, decide_False, if_false, Bool.false_eq_true]
        rw [abs_of_pos hmpos'] at hclose
        rw [one_mul]
        exact hclose

/-! ## Statistics: the average rating -/

theorem ratingIsInteger_iff (x : Option JSNum) :
    ratingIsInteger x = true ↔ ∃ z : ℤ, x = some (JSNum.fin z) := by
  cases x with
  | none => simp [ratingIsInteger]
  | some y =>
    simp only [ratingIsInteger, isInteger_iff, Option.some.injEq]

theorem ratedValue_of_completed_integer (r : Record)
    (h1 : (r.status == some "Completed") = true) (h2 : ratingIsInteger r.rating = true) :
    ∃ z : ℤ, ratedValue r = some z ∧ ratingNumber r.rating = JSNum.fin (z : ℚ) := by
  rcases r with ⟨g, rt, st⟩
  obtain ⟨z, hz⟩ := (ratingIsInteger_iff rt).1 h2
  have hs : st = some "Completed" := by simpa using h1
  subst hs hz
  refine ⟨z, ?_, rfl⟩
  simp [ratedValue, Rat.den_intCast, Rat.num_intCast]

theorem ratedValue_of_not (r : Record)
    (h : ((r.status == some "Completed") && ratingIsInteger r.rating) = false) :
    ratedValue r = none := by
  rcases r with ⟨g, rt, st⟩
  unfold ratedValue
  cases st with
  | none => rfl
  | some s =>
    cases rt with
    | none => rfl
    | some y =>
      cases y with
      | fin q =>
        have hn : ¬ (s = "Completed" ∧ q.den = 1) := by
          rintro ⟨rfl, hq⟩
          simp [ratingIsInteger, JSNum.isInteger, Rat.isInt, hq] at h
        simp only [hn, if_false]
      | nan => rfl
      | posInf => rfl
      | negInf => rfl

theorem completedWithRating_eq_filter (rs : List Record) :
    completedWithRating rs =
      rs.filter (fun r => (r.status == some "Completed") && ratingIsInteger r.rating) := by
  unfold completedWithRating completed
  rw [List.filter_filter]
  apply List.filter_congr
  intro x _
  exact Bool.and_comm _ _

/-- The numbers the reducer adds up are the integers of `ratedCompleted`. -/
theorem ratingNumbers_eq (records : List Record) :
    (completedWithRating records).map (fun r => ratingNumber r.rating) =
      (ratedCompleted records).map (fun (z : ℤ) => JSNum.fin (z : ℚ)) := by
  rw [completedWithRating_eq_filter]
  unfold ratedCompleted
  induction records with
  | nil => rfl
  | cons r rest ih =>
    by_cases h : ((r.status == some "Completed") && ratingIsInteger r.rating) = true
    · obtain ⟨h1, h2⟩ := Bool.and_eq_true_iff.1 h
      obtain ⟨z, hz1, hz2⟩ := ratedValue_of_completed_integer r h1 h2
      rw [List.filter_cons, if_pos h, List.filterMap_cons_some hz1, List.map_cons, List.map_cons,
        ih, hz2]
    · have h' : ((r.status == some "Completed") && ratingIsInteger r.rating) = false := by
        simpa using h
      rw [List.filter_cons, if_neg h, List.filterMap_cons_none (ratedValue_of_not r h'), ih]

theorem ratingSum_eq_foldl (rs : List Record) :
    ratingSum rs = (rs.map (fun r => ratingNumber r.rating)).foldl JSNum.add (JSNum.fin 0) := by
  unfold ratingSum
  rw [List.foldl_map]

theorem abs_sum_le (zs : List ℤ) : |zs.sum| ≤ (zs.map (fun (z : ℤ) => |z|)).sum := by
  induction zs with
  | nil => simp
  | cons z rest ih =>
    simp only [List.sum_cons, List.map_cons]
    exact le_trans (abs_add _ _) (by linarith)

/-- While the magnitudes stay within `2 ^ 53`, the floating-point sum is exact. -/
theorem foldl_add_exact (zs : List ℤ) (acc : ℤ)
    (h : |acc| + (zs.map (fun (z : ℤ) => |z|)).sum ≤ 2 ^ 53) :
    (zs.map (fun (z : ℤ) => JSNum.fin (z : ℚ))).foldl JSNum.add (JSNum.fin (acc : ℚ)) =
      JSNum.fin ((acc + zs.sum : ℤ) : ℚ) := by
  induction zs generalizing acc with
  | nil => simp
  | cons z rest ih =>
    simp only [List.map_cons, List.sum_cons, List.foldl_cons] at h ⊢
    have hstep : JSNum.add (JSNum.fin (acc : ℚ)) (JSNum.fin (z : ℚ)) =
        JSNum.fin ((acc + z : ℤ) : ℚ) := by
      have hb : |acc + z| ≤ 2 ^ 53 := by
        have h0 : 0 ≤ (rest.map (fun (z : ℤ) => |z|)).sum :=
          le_trans (abs_nonneg _) (abs_sum_le rest)
        have := abs_add acc z
        linarith
      have := roundToDouble_int (acc + z) hb
      simp only [JSNum.add]
      rw [← this]
      push_cast
      rfl
    rw [hstep, ih (acc + z)]
    · rw [add_assoc]
    · have := abs_add acc z
      linarith

theorem div_fin (a b : ℚ) (hb : b ≠ 0) :
    JSNum.div (JSNum.fin a) (JSNum.fin b) = roundToDouble (a / b) := by
  simp [JSNum.div, hb]

/-- The average text in terms of the integers of `ratedCompleted`, when the sum is
exact. -/
theorem statAvgRating_eq (records : List Record) (hne : ratedCompleted records ≠ [])
    (hb : ((ratedCompleted records).map (fun (z : ℤ) => |z|)).sum ≤ 2 ^ 53) :
    statAvgRating records =
      toFixed1 (roundToDouble (((ratedCompleted records).sum : ℚ) /
        ((ratedCompleted records).length : ℚ))) := by
  have hmap := ratingNumbers_eq records
  have hlen : (completedWithRating records).length = (ratedCompleted records).length := by
    have := congrArg List.length hmap
    simpa using this
  have hpos : 0 < (ratedCompleted records).length := List.length_pos.2 hne
  unfold statAvgRating
  simp only
  rw [if_neg (by omega), ratingSum_eq_foldl, hmap, hlen]
  have := foldl_add_exact (ratedCompleted records) 0 (by simpa using hb)
  simp only [Int.cast_zero, zero_add] at this
  rw [this, div_fin _ _ (by exact_mod_cast (ne_of_gt hpos))]

theorem statAvgRating_of_none (records : List Record) (h : ratedCompleted records = []) :
    statAvgRating records = AvgText.dash := by
  have hmap := ratingNumbers_eq records
  have hlen : (completedWithRating records).length = 0 := by
    have := congrArg List.length hmap
    simpa [h] using this
  unfold statAvgRating
  simp only
  rw [if_pos hlen]

theorem completedWithRating_skip (before after : List Record) (r : Record)
    (hr : r.status ≠ some "Completed" ∨ ratingIsInteger r.rating = false) :
    completedWithRating (before ++ r :: after) = completedWithRating (before ++ after) := by
  have h : ¬ ((r.status == some "Completed") && ratingIsInteger r.rating) = true := by
    rcases hr with h | h
    · have : (r.status == some "Completed") = false := by simpa using h
      simp [this]
    · simp [h]
  rw [completedWithRating_eq_filter, completedWithRating_eq_filter, List.filter_append,
    List.filter_cons, if_neg h, List.filter_append]

theorem add_fin (a b : ℚ) : JSNum.add (JSNum.fin a) (JSNum.fin b) = roundToDouble (a + b) := rfl

theorem toFixed1_fin (q : ℚ) :
    toFixed1 (JSNum.fin q) =
      if (10 : ℚ) ^ 21 ≤ |q| then AvgText.general (JSNum.fin q)
      else AvgText.fixed1 (decide (q < 0)) ⌊10 * |q| + 1 / 2⌋.toNat := rfl

/-- The average text in terms of the integers of `ratedCompleted`. -/
theorem statAvgRating_eq_fold (records : List Record) :
    statAvgRating records =
      if (ratedCompleted records).length = 0 then AvgText.dash
      else toFixed1 (JSNum.div
        (((ratedCompleted records).map (fun (z : ℤ) => JSNum.fin (z : ℚ))).foldl JSNum.add
          (JSNum.fin 0))
        (JSNum.fin (((ratedCompleted records).length : ℕ) : ℚ))) := by
  have hmap := ratingNumbers_eq records
  have hlen : (completedWithRating records).length = (ratedCompleted records).length := by
    have := congrArg List.length hmap
    simpa using this
  unfold statAvgRating
  simp only
  rw [ratingSum_eq_foldl, hmap, hlen]

theorem roundToDouble_ten_pow_21 :
    roundToDouble ((10 : ℚ) ^ 21) = JSNum.fin ((10 : ℚ) ^ 21) := by
  have h := roundToDouble_dyadic_pos (5 ^ 21) 21 (by norm_num) (by norm_num) (by norm_num)
    (by norm_num)
  have e : (((5 : ℤ) ^ 21 : ℤ) : ℚ) * (2 : ℚ) ^ (21 : ℤ) = (10 : ℚ) ^ 21 := by norm_num
  rw [e] at h
  exact h

theorem roundToDouble_two_pow_53_add_one :
    roundToDouble ((2 : ℚ) ^ 53 + 1) = JSNum.fin ((2 : ℚ) ^ 53) := by
  rw [roundToDouble_pos ((2 : ℚ) ^ 53 + 1) 53 (by norm_num) (by norm_num) (by norm_num)]
  have hr : roundHalfEven (((2 : ℚ) ^ 53 + 1) / (2 : ℚ) ^ ((53 : ℤ) - 52)) = 2 ^ 52 := by
    have e : ((2 : ℚ) ^ 53 + 1) / (2 : ℚ) ^ ((53 : ℤ) - 52) = ((2 ^ 52 : ℤ) : ℚ) + 1 / 2 := by
      norm_num
    rw [e]
    have hf : ⌊((2 ^ 52 : ℤ) : ℚ) + 1 / 2⌋ = 2 ^ 52 := by
      rw [Int.floor_int_add]
      norm_num
    unfold roundHalfEven
    simp only [hf]
    norm_num
  rw [hr]
  norm_num

theorem ratedCompleted_huge : ratedCompleted hugeRatingRecords = [10 ^ 21] := by
  simp [ratedCompleted, hugeRatingRecords, mkRecord, ratedValue]

theorem ratedCompleted_lostUnit : ratedCompleted lostUnitRecords = [2 ^ 53, 1] := by
  simp [ratedCompleted, lostUnitRecords, mkRecord, ratedValue]

theorem statAvgRating_huge :
    statAvgRating hugeRatingRecords = AvgText.general (JSNum.fin ((10 : ℚ) ^ 21)) := by
  rw [statAvgRating_eq_fold, ratedCompleted_huge]
  have e1 : (0 : ℚ) + (((10 : ℤ) ^ 21 : ℤ) : ℚ) = (10 : ℚ) ^ 21 := by norm_num
  have e2 : (10 : ℚ) ^ 21 / (((1 : ℕ) : ℚ)) = (10 : ℚ) ^ 21 := by norm_num
  have e3 : (10 : ℚ) ^ 21 ≤ |(10 : ℚ) ^ 21| := by norm_num
  rw [List.length_singleton, if_neg (by decide), List.map_cons, List.map_nil, List.foldl_cons,
    List.foldl_nil, add_fin, e1, roundToDouble_ten_pow_21, div_fin _ _ (by norm_num), e2,
    roundToDouble_ten_pow_21]
  rw [toFixed1_fin, if_pos e3]

theorem statAvgRating_lostUnit :
    statAvgRating lostUnitRecords = AvgText.fixed1 false (10 * 2 ^ 52) := by
  rw [statAvgRating_eq_fold, ratedCompleted_lostUnit]
  have h53 : roundToDouble ((2 : ℚ) ^ 53) = JSNum.fin ((2 : ℚ) ^ 53) := by
    have := roundToDouble_int (2 ^ 53) (by norm_num)
    have e : (((2 : ℤ) ^ 53 : ℤ) : ℚ) = (2 : ℚ) ^ 53 := by norm_num
    rw [e] at this
    exact this
  have h52 : roundToDouble ((2 : ℚ) ^ 52) = JSNum.fin ((2 : ℚ) ^ 52) := by
    have := roundToDouble_int (2 ^ 52) (by norm_num)
    have e : (((2 : ℤ) ^ 52 : ℤ) : ℚ) = (2 : ℚ) ^ 52 := by norm_num
    rw [e] at this
    exact this
  have e1 : (0 : ℚ) + (((2 : ℤ) ^ 53 : ℤ) : ℚ) = (2 : ℚ) ^ 53 := by norm_num
  have e2 : (2 : ℚ) ^ 53 + ((1 : ℤ) : ℚ) = (2 : ℚ) ^ 53 + 1 := by norm_num
  have e3 : (2 : ℚ) ^ 53 / (((1 + 1 : ℕ) : ℕ) : ℚ) = (2 : ℚ) ^ 52 := by norm_num
  have e4 : ¬ (10 : ℚ) ^ 21 ≤ |(2 : ℚ) ^ 52| := by norm_num
  have e5 : ⌊10 * |(2 : ℚ) ^ 52| + 1 / 2⌋ = 10 * 2 ^ 52 := by
    rw [Int.floor_eq_iff]
    norm_num
  have e6 : decide ((2 : ℚ) ^ 52 < 0) = false := by
    rw [decide_eq_false_iff_not]; norm_num
  rw [List.length_cons, List.length_singleton, if_neg (by decide), List.map_cons, List.map_cons,
    List.map_nil, List.foldl_cons, List.foldl_cons, List.foldl_nil, add_fin, e1, h53, add_fin,
    e2, roundToDouble_two_pow_53_add_one, div_fin _ _ (by norm_num), e3, h52]
  rw [toFixed1_fin, if_neg e4, e5, e6]
  rfl

theorem ratedCompleted_three : ratedCompleted threeRecords = [8, 9] := by
  simp [ratedCompleted, threeRecords, mkRecord, ratedValue]

theorem statAvgRating_three : statAvgRating threeRecords = AvgText.fixed1 false 85 := by
  rw [statAvgRating_eq threeRecords (by rw [ratedCompleted_three]; decide)
    (by rw [ratedCompleted_three]; norm_num), ratedCompleted_three]
  have h := roundToDouble_dyadic_pos 17 (-1) (by norm_num) (by norm_num) (by norm_num)
    (by norm_num)
  have e : ((17 : ℤ) : ℚ) * (2 : ℚ) ^ (-1 : ℤ) = 17 / 2 := by norm_num
  rw [e] at h
  have e1 : ((([8, 9] : List ℤ).sum : ℤ) : ℚ) / ((([8, 9] : List ℤ).length : ℕ) : ℚ) = 17 / 2 := by
    norm_num
  have e4 : ¬ (10 : ℚ) ^ 21 ≤ |(17 / 2 : ℚ)| := by
    rw [abs_of_pos (by norm_num)]; norm_num
  have e5 : ⌊10 * |(17 / 2 : ℚ)| + 1 / 2⌋ = 85 := by
    rw [abs_of_pos (by norm_num), Int.floor_eq_iff]
    norm_num
  have e6 : decide ((17 / 2 : ℚ) < 0) = false := by
    rw [decide_eq_false_iff_not]; norm_num
  rw [e1, h, toFixed1_fin, if_neg e4, e5, e6]
  rfl

/-- C6 as stated fails in two ways.  A single Completed record rated `10 ^ 21` is shown
in the general number form, not as a numeral with one fractional digit; and for the
ratings `2 ^ 53` and `1` the floating-point sum loses the `1`, so the text shown,
`4503599627370496.0`, is `1 / 2` away from the exact mean. -/
theorem average_text_not_always_rounded_mean :
    (ratedCompleted hugeRatingRecords = [10 ^ 21] ∧
      (renderStats hugeRatingRecords).averageRating =
        AvgText.general (JSNum.fin ((10 : ℚ) ^ 21)) ∧
      ¬ ∃ neg t, (renderStats hugeRatingRecords).averageRating = AvgText.fixed1 neg t) ∧
    (ratedCompleted lostUnitRecords = [2 ^ 53, 1] ∧
      (renderStats lostUnitRecords).averageRating = AvgText.fixed1 false (10 * 2 ^ 52) ∧
      ¬ |fixed1Value false (10 * 2 ^ 52) - exactMean (ratedCompleted lostUnitRecords)|
          ≤ 1 / 20) := by
  refine ⟨⟨ratedCompleted_huge, statAvgRating_huge, ?_⟩,
    ⟨ratedCompleted_lostUnit, statAvgRating_lostUnit, ?_⟩⟩
  · rintro ⟨neg, t, h⟩
    have h' : statAvgRating hugeRatingRecords = AvgText.fixed1 neg t := h
    rw [statAvgRating_huge] at h'
    cases h'
  · rw [ratedCompleted_lostUnit]
    have e : fixed1Value false (10 * 2 ^ 52) - exactMean [2 ^ 53, 1] = -(1 / 2) := by
      simp only [fixed1Value, exactMean]
      norm_num
    rw [e]
    norm_num [abs_of_pos]

/-- C6 (amended): if no record is Completed with an integer rating the average text is
the dash; otherwise, provided twenty times the sum of the magnitudes of those ratings
is below `2 ^ 53`, it is a numeral with exactly one fractional digit whose value is
within `1 / 20` of their exact mean; and a record that is not Completed, or whose
rating is absent or not an integer, does not affect the text. -/
theorem statAvgRating_rounded_mean (records : List Record) :
    (ratedCompleted records = [] → (renderStats records).averageRating = AvgText.dash) ∧
    (ratedCompleted records ≠ [] →
      20 * ((ratedCompleted records).map (fun (z : ℤ) => |z|)).sum < 2 ^ 53 →
      ∃ neg t, (renderStats records).averageRating = AvgText.fixed1 neg t ∧
        |fixed1Value neg t - exactMean (ratedCompleted records)| ≤ 1 / 20) ∧
    (∀ before after r, records = before ++ r :: after →
      (r.status ≠ some "Completed" ∨ ratingIsInteger r.rating = false) →
      (renderStats records).averageRating =
        (renderStats (before ++ after)).averageRating) := by
  simp only [renderStats]
  refine ⟨statAvgRating_of_none records, ?_, ?_⟩
  · intro hne hb
    have h0 : 0 ≤ ((ratedCompleted records).map (fun (z : ℤ) => |z|)).sum :=
      le_trans (abs_nonneg _) (abs_sum_le _)
    rw [statAvgRating_eq records hne (by linarith)]
    have hpos : 0 < (ratedCompleted records).length := List.length_pos.2 hne
    have hS : 20 * |(ratedCompleted records).sum| < 2 ^ 53 := by
      have := abs_sum_le (ratedCompleted records)
      linarith
    exact toFixed1_quotient_close _ _ hpos hS
  · rintro before after r rfl hr
    unfold statAvgRating
    rw [completedWithRating_skip before after r hr]

/-- C6 (amended) at three records, two of them Completed with ratings 8 and 9: the
text is `8.5`. -/
theorem statAvgRating_rounded_mean_witness :
    (ratedCompleted threeRecords ≠ [] ∧
      20 * ((ratedCompleted threeRecords).map (fun (z : ℤ) => |z|)).sum < 2 ^ 53) ∧
    (renderStats threeRecords).averageRating = AvgText.fixed1 false 85 ∧
    fixed1String false 85 = "8.5" ∧
    ∃ neg t, (renderStats threeRecords).averageRating = AvgText.fixed1 neg t ∧
      |fixed1Value neg t - exactMean (ratedCompleted threeRecords)| ≤ 1 / 20 :=
  ⟨⟨by rw [ratedCompleted_three]; decide, by rw [ratedCompleted_three]; norm_num⟩,
   statAvgRating_three, by decide,
   (statAvgRating_rounded_mean threeRecords).2.1 (by rw [ratedCompleted_three]; decide)
    (by rw [ratedCompleted_three]; norm_num)⟩

/-! ## Statistics: the genre tally -/

theorem mem_firstSeen (gs : List String) (a : String) : a ∈ firstSeen gs ↔ a ∈ gs := by
  induction gs with
  | nil => simp [firstSeen]
  | cons g rest ih =>
    simp only [firstSeen, List.mem_cons, List.mem_filter, ih, decide_eq_true_eq]
    by_cases h : a = g <;> simp [h]

theorem nodup_firstSeen (gs : List String) : (firstSeen gs).Nodup := by
  induction gs with
  | nil => simp [firstSeen]
  | cons g rest ih =>
    simp only [firstSeen, List.nodup_cons, List.mem_filter, decide_eq_true_eq]
    exact ⟨fun h => h.2 rfl, ih.filter _⟩

theorem firstSeen_snoc (gs : List String) (g : String) :
    firstSeen (gs ++ [g]) = if g ∈ gs then firstSeen gs else firstSeen gs ++ [g] := by
  induction gs with
  | nil => simp [firstSeen]
  | cons x rest ih =>
    have e : firstSeen (x :: rest ++ [g]) =
        x :: (firstSeen (rest ++ [g])).filter (fun h => h ≠ x) := rfl
    rw [e, ih]
    simp only [firstSeen]
    by_cases h1 : g ∈ rest
    · simp [h1]
    · by_cases h2 : g = x
      · subst h2
        simp [h1, List.filter_append]
      · simp [h1, h2, List.filter_append]

theorem mapGet_tally (l : List String) (f : String → ℕ) (k : String) :
    mapGet (l.map (fun g => (g, f g))) k = if k ∈ l then some (f k) else none := by
  induction l with
  | nil => simp [mapGet]
  | cons x rest ih =>
    simp only [List.map_cons, mapGet, ih, List.mem_cons]
    by_cases h : x = k
    · subst h; simp
    · have h' : ¬ k = x := fun e => h e.symm
      simp [h, h']

theorem mapSet_tally_new (l : List String) (f : String → ℕ) (k : String) (c : ℕ)
    (h : k ∉ l) :
    mapSet (l.map (fun g => (g, f g))) k c = l.map (fun g => (g, f g)) ++ [(k, c)] := by
  induction l with
  | nil => simp [mapSet]
  | cons x rest ih =>
    have hx : ¬ x = k := fun e => h (by simp [e])
    have hr : k ∉ rest := fun e => h (by simp [e])
    simp [mapSet, hx, ih hr]

theorem mapSet_tally_old (l : List String) (f : String → ℕ) (k : String) (c : ℕ)
    (h : k ∈ l) (hn : l.Nodup) :
    mapSet (l.map (fun g => (g, f g))) k c =
      l.map (fun g => (g, if g = k then c else f g)) := by
  induction l with
  | nil => simp at h
  | cons x rest ih =>
    rw [List.nodup_cons] at hn
    by_cases hx : x = k
    · subst hx
      simp only [List.map_cons, mapSet, if_true, List.cons.injEq, true_and]
      apply List.map_congr_left
      intro g hg
      have : ¬ g = x := fun e => hn.1 (e ▸ hg)
      simp [this]
    · have hr : k ∈ rest := by
        rcases List.mem_cons.1 h with e | e
        · exact absurd e.symm hx
        · exact e
      simp [mapSet, hx, ih hr hn.2]

theorem genreSeq_snoc (records : List Record) (r : Record) :
    genreSeq (records ++ [r]) =
      genreSeq records ++ (if trimmedGenre r = "" then [] else [trimmedGenre r]) := by
  unfold genreSeq
  rw [List.filterMap_append]
  congr 1
  rcases r with ⟨g, rt, st⟩
  cases g with
  | none => simp [trimmedGenre, jsTrim_empty]
  | some s => by_cases h : jsTrim s = "" <;> simp [trimmedGenre, h]

theorem genreCounts_snoc (records : List Record) (r : Record) :
    genreCounts (records ++ [r]) = tallyStep (genreCounts records) r := by
  simp [genreCounts, List.foldl_append]

/-- The tally map lists the distinct trimmed genres in order of first occurrence, each
with its number of occurrences. -/
theorem genreCounts_eq (records : List Record) :
    genreCounts records =
      (firstSeen (genreSeq records)).map (fun g => (g, (genreSeq records).count g)) := by
  induction records using List.reverseRecOn with
  | nil => rfl
  | append_singleton recs r ih =>
    rw [genreCounts_snoc, genreSeq_snoc, ih]
    unfold tallyStep
    by_cases hg : trimmedGenre r = ""
    · simp [hg]
    · simp only [hg, if_false]
      rw [mapGet_tally, firstSeen_snoc]
      by_cases hm : trimmedGenre r ∈ genreSeq recs
      · have hm' : trimmedGenre r ∈ firstSeen (genreSeq recs) := (mem_firstSeen _ _).2 hm
        rw [if_pos hm', if_pos hm, mapSet_tally_old _ _ _ _ hm' (nodup_firstSeen _)]
        apply List.map_congr_left
        intro g _
        by_cases e : g = trimmedGenre r
        · subst e; simp
        · have e' : ¬ trimmedGenre r = g := fun x => e x.symm
          simp [e, e', List.count_singleton]
      · have hm' : trimmedGenre r ∉ firstSeen (genreSeq recs) :=
          fun x => hm ((mem_firstSeen _ _).1 x)
        rw [if_neg hm', if_neg hm, mapSet_tally_new _ _ _ _ hm', List.map_append]
        congr 1
        · apply List.map_congr_left
          intro g hg'
          have e : ¬ trimmedGenre r = g := fun x => hm' (x ▸ hg')
          simp [e, List.count_singleton]
        · simp [List.count_eq_zero_of_not_mem hm]

/-- The selection loop returns the start value when no entry beats it, and otherwise
the first entry whose count is the largest one. -/
theorem topFold_spec (m : List (String × ℕ)) (top : String × ℕ) :
    (m.foldl topStep top = top ∧ ∀ e ∈ m, e.2 ≤ top.2) ∨
    ∃ l1 l2, m = l1 ++ m.foldl topStep top :: l2 ∧ top.2 < (m.foldl topStep top).2 ∧
      (∀ e ∈ l1, e.2 < (m.foldl topStep top).2) ∧
      (∀ e ∈ l2, e.2 ≤ (m.foldl topStep top).2) := by
  induction m generalizing top with
  | nil => left; simp
  | cons e rest ih =>
    rw [List.foldl_cons]
    by_cases he : e.2 > top.2
    · have hs : topStep top e = e := by simp [topStep, he]
      rw [hs]
      right
      rcases ih e with ⟨h1, h2⟩ | ⟨l1, l2, h1, h2, h3, h4⟩
      · refine ⟨[], rest, by rw [h1]; rfl, by rw [h1]; exact he, by simp, by rw [h1]; exact h2⟩
      · refine ⟨e :: l1, l2, by rw [List.cons_append, ← h1], lt_trans he h2, ?_, h4⟩
        intro x hx
        rcases List.mem_cons.1 hx with rfl | hx
        · exact h2
        · exact h3 x hx
    · have hs : topStep top e = top := by simp [topStep, he]
      rw [hs]
      rcases ih top with ⟨h1, h2⟩ | ⟨l1, l2, h1, h2, h3, h4⟩
      · left
        refine ⟨h1, ?_⟩
        intro x hx
        rcases List.mem_cons.1 hx with rfl | hx
        · exact not_lt.1 he
        · exact h2 x hx
      · right
        refine ⟨e :: l1, l2, by rw [List.cons_append, ← h1], h2, ?_, h4⟩
        intro x hx
        rcases List.mem_cons.1 hx with rfl | hx
        · exact lt_of_le_of_lt (not_lt.1 he) h2
        · exact h3 x hx

/-- In `firstSeen gs` an element stands before another exactly as their first
occurrences do in `gs`. -/
theorem firstSeen_pairwise (gs : List String) :
    (firstSeen gs).Pairwise (fun a b => gs.indexOf a < gs.indexOf b) := by
  induction gs with
  | nil => simp [firstSeen]
  | cons x rest ih =>
    simp only [firstSeen, List.pairwise_cons, List.mem_filter, decide_eq_true_eq]
    constructor
    · rintro b ⟨_, hb⟩
      rw [List.indexOf_cons_self, List.indexOf_cons_ne _ (Ne.symm hb)]
      exact Nat.succ_pos _
    · refine List.Pairwise.imp_of_mem ?_ (ih.filter _)
      intro a b ha hb hab
      have ha' : a ≠ x := by simpa using (List.mem_filter.1 ha).2
      have hb' : b ≠ x := by simpa using (List.mem_filter.1 hb).2
      rw [List.indexOf_cons_ne _ (Ne.symm ha'), List.indexOf_cons_ne _ (Ne.symm hb')]
      exact Nat.succ_lt_succ hab

/-- The facts about `statTopGenre` on which the genre claims rest. -/
theorem statTopGenre_facts (records : List Record) (hne : genreSeq records ≠ []) :
    statTopGenre records ∈ genreSeq records ∧
    (∀ h, (genreSeq records).count h ≤ (genreSeq records).count (statTopGenre records)) ∧
    (∀ h, h ≠ statTopGenre records →
      (genreSeq records).count h = (genreSeq records).count (statTopGenre records) →
      (genreSeq records).indexOf (statTopGenre records) < (genreSeq records).indexOf h) := by
  have hm := genreCounts_eq records
  have hpw := firstSeen_pairwise (genreSeq records)
  unfold statTopGenre
  generalize hgs : genreSeq records = gs at *
  generalize hmm : genreCounts records = m at *
  have hmem : ∀ e, e ∈ m ↔ e.1 ∈ gs ∧ e.2 = gs.count e.1 := by
    intro e
    rw [hm, List.mem_map]
    constructor
    · rintro ⟨g, hg, rfl⟩
      exact ⟨(mem_firstSeen _ _).1 hg, rfl⟩
    · rintro ⟨h1, h2⟩
      exact ⟨e.1, (mem_firstSeen _ _).2 h1, by rw [← h2]⟩
  rcases topFold_spec m ("—", 0) with ⟨_, h2⟩ | ⟨l1, l2, h1, h2, h3, h4⟩
  · exfalso
    obtain ⟨g, hg⟩ := List.exists_mem_of_ne_nil gs hne
    have := h2 (g, gs.count g) ((hmem _).2 ⟨hg, rfl⟩)
    have hpos : 0 < gs.count g := List.count_pos_iff.2 hg
    simp only at this
    omega
  · generalize hres : List.foldl topStep ("—", 0) m = res at *
    have hin : res ∈ m := by rw [h1]; simp
    obtain ⟨hr1, hr2⟩ := (hmem res).1 hin
    have hle : ∀ h, gs.count h ≤ gs.count res.1 := by
      intro h
      by_cases hh : h ∈ gs
      · have hx : (h, gs.count h) ∈ m := (hmem _).2 ⟨hh, rfl⟩
        rw [h1, List.mem_append, List.mem_cons] at hx
        rw [← hr2]
        rcases hx with hx | hx | hx
        · exact le_of_lt (h3 _ hx)
        · rw [← hx]
        · exact h4 _ hx
      · rw [List.count_eq_zero_of_not_mem hh]; exact Nat.zero_le _
    refine ⟨hr1, hle, ?_⟩
    intro h hne' hc
    have hh : h ∈ gs := by
      apply List.count_pos_iff.1
      rw [hc, ← hr2]
      exact lt_of_le_of_lt (Nat.zero_le _) h2
    have hx : (h, gs.count h) ∈ m := (hmem _).2 ⟨hh, rfl⟩
    rw [h1, List.mem_append, List.mem_cons] at hx
    have hkeys : firstSeen gs = l1.map (fun e => e.1) ++ res.1 :: l2.map (fun e => e.1) := by
      have := congrArg (List.map (fun e : String × ℕ => e.1)) h1
      rw [hm] at this
      simpa [List.map_map, Function.comp_def] using this
    rw [hkeys, List.pairwise_append, List.pairwise_cons] at hpw
    rcases hx with hx | hx | hx
    · have := h3 _ hx
      simp only at this
      rw [hc, hr2] at this
      exact absurd this (lt_irrefl _)
    · exact absurd (congrArg Prod.fst hx) hne'
    · exact hpw.2.1.1 h (List.mem_map.2 ⟨_, hx, rfl⟩)

theorem statTopGenre_of_no_genre (records : List Record) (h : genreSeq records = []) :
    statTopGenre records = "—" := by
  unfold statTopGenre
  rw [genreCounts_eq, h]
  rfl

/-- C7: the top genre is the dash when no record has a genre that is non-empty after
trimming; otherwise it is one of the trimmed genres, no genre occurs more often, and
every other genre occurring equally often first occurs later in input order. -/
theorem statTopGenre_most_frequent_earliest (records : List Record) :
    (genreSeq records = [] → (renderStats records).topGenre = "—") ∧
    (genreSeq records ≠ [] →
      (renderStats records).topGenre ∈ genreSeq records ∧
      (∀ h, (genreSeq records).count h ≤
        (genreSeq records).count (renderStats records).topGenre) ∧
      (∀ h, h ≠ (renderStats records).topGenre →
        (genreSeq records).count h = (genreSeq records).count (renderStats records).topGenre →
        (genreSeq records).indexOf (renderStats records).topGenre <
          (genreSeq records).indexOf h)) :=
  ⟨statTopGenre_of_no_genre records, statTopGenre_facts records⟩

/-- C7 at the genres A, B, A, B, where the answer is `"A"`. -/
theorem statTopGenre_most_frequent_earliest_witness :
    genreSeq genresABAB ≠ [] ∧ (renderStats genresABAB).topGenre = "A" ∧
    (renderStats genresABAB).topGenre ∈ genreSeq genresABAB ∧
    (∀ h, (genreSeq genresABAB).count h ≤
      (genreSeq genresABAB).count (renderStats genresABAB).topGenre) ∧
    (∀ h, h ≠ (renderStats genresABAB).topGenre →
      (genreSeq genresABAB).count h =
        (genreSeq genresABAB).count (renderStats genresABAB).topGenre →
      (genreSeq genresABAB).indexOf (renderStats genresABAB).topGenre <
        (genreSeq genresABAB).indexOf h) :=
  ⟨by decide, by decide, (statTopGenre_most_frequent_earliest genresABAB).2 (by decide)⟩

/-! ## Statistics: ties between genres -/

theorem le_foldr_max (l : List ℕ) : ∀ x ∈ l, x ≤ l.foldr max 0 := by
  induction l with
  | nil => simp
  | cons y rest ih =>
    intro x hx
    rw [List.foldr_cons]
    rcases List.mem_cons.1 hx with rfl | hx
    · exact le_max_left _ _
    · exact le_trans (ih x hx) (le_max_right _ _)

theorem foldr_max_mem (l : List ℕ) (h : l ≠ []) : l.foldr max 0 ∈ l := by
  induction l with
  | nil => exact absurd rfl h
  | cons y rest ih =>
    rw [List.foldr_cons]
    by_cases hr : rest = []
    · subst hr; simp
    · rcases max_choice y (rest.foldr max 0) with e | e
      · rw [e]; simp
      · rw [e]; exact List.mem_cons_of_mem _ (ih hr)

theorem count_le_maxCount (gs : List String) (g : String) : gs.count g ≤ maxCount gs := by
  by_cases hg : g ∈ gs
  · exact le_foldr_max _ _ (List.mem_map.2 ⟨g, hg, rfl⟩)
  · rw [List.count_eq_zero_of_not_mem hg]; exact Nat.zero_le _

theorem maxCount_attained (gs : List String) (h : gs ≠ []) :
    ∃ g ∈ gs, gs.count g = maxCount gs := by
  have hm := foldr_max_mem (gs.map (fun g => gs.count g)) (by simpa using h)
  obtain ⟨g, hg, e⟩ := List.mem_map.1 hm
  exact ⟨g, hg, e⟩

/-- The first element satisfying `p` is `g` when `g` satisfies `p` and first occurs
before every other element that does. -/
theorem find_eq_of_indexOf (l : List String) (p : String → Bool) (g : String)
    (hg : g ∈ l) (hp : p g = true)
    (hfirst : ∀ h ∈ l, p h = true → h ≠ g → l.indexOf g < l.indexOf h) :
    l.find? p = some g := by
  induction l with
  | nil => simp at hg
  | cons x rest ih =>
    by_cases hx : x = g
    · subst hx; simp [List.find?_cons, hp]
    · have hpx : p x = false := by
        by_contra hc
        have := hfirst x (List.mem_cons_self _ _) (by simpa using hc) hx
        rw [List.indexOf_cons_self] at this
        exact Nat.not_lt_zero _ this
      rw [List.find?_cons, hpx]
      have hg' : g ∈ rest := by
        rcases List.mem_cons.1 hg with e | e
        · exact absurd e.symm hx
        · exact e
      apply ih hg'
      intro h hh hph hne
      have hhx : x ≠ h := by
        intro e; rw [e] at hpx; rw [hpx] at hph; cases hph
      have := hfirst h (List.mem_cons_of_mem _ hh) hph hne
      rw [List.indexOf_cons_ne _ hx, List.indexOf_cons_ne _ hhx] at this
      exact Nat.lt_of_succ_lt_succ this

/-- C9 as stated fails: with genres A, B, B, A both have count 2; the first record at
which a running count reaches 2 has genre B, but the top genre is A. -/
theorem first_to_reach_max_is_not_top :
    tiedForMax (genreSeq genresABBA) ∧
    firstReachingMax (genreSeq genresABBA) = some "B" ∧
    (renderStats genresABBA).topGenre = "A" ∧
    ¬ (tiedForMax (genreSeq genresABBA) →
        firstReachingMax (genreSeq genresABBA) =
          some (renderStats genresABBA).topGenre) := by
  have ht : tiedForMax (genreSeq genresABBA) :=
    ⟨"A", by decide, "B", by decide, by decide, by decide, by decide⟩
  refine ⟨ht, by decide, by decide, ?_⟩
  intro h
  exact absurd (h ht) (by decide)

/-- C9 (amended): when two or more genres tie for the largest count, the top genre is
the first genre in input order whose total count is that largest count, that is, the
tied genre that occurs first. -/
theorem statTopGenre_first_of_tied (records : List Record)
    (h : tiedForMax (genreSeq records)) :
    (genreSeq records).find?
        (fun g => (genreSeq records).count g == maxCount (genreSeq records)) =
      some (renderStats records).topGenre := by
  simp only [renderStats]
  have hne : genreSeq records ≠ [] := by
    obtain ⟨a, ha, _⟩ := h
    exact List.ne_nil_of_mem ha
  obtain ⟨h1, h2, h3⟩ := statTopGenre_facts records hne
  obtain ⟨g0, _, hg0⟩ := maxCount_attained _ hne
  have hmax : (genreSeq records).count (statTopGenre records) = maxCount (genreSeq records) :=
    le_antisymm (count_le_maxCount _ _) (hg0 ▸ h2 g0)
  apply find_eq_of_indexOf _ _ _ h1
  · simpa using hmax
  · intro x _ hx hne'
    apply h3 x hne'
    rw [hmax]
    simpa using hx

/-- C9 (amended) at the genres A, B, B, A. -/
theorem statTopGenre_first_of_tied_witness :
    tiedForMax (genreSeq genresABBA) ∧
    (genreSeq genresABBA).find?
        (fun g => (genreSeq genresABBA).count g == maxCount (genreSeq genresABBA)) =
      some (renderStats genresABBA).topGenre :=
  ⟨⟨"A", by decide, "B", by decide, by decide, by decide, by decide⟩,
   statTopGenre_first_of_tied genresABBA
    ⟨"A", by decide, "B", by decide, by decide, by decide, by decide⟩⟩

/-! ## Statistics: totals and the status breakdown -/

/-- C8: the breakdown is exactly the four entries Planned, Watching, Completed, Dropped
in that order, each with the number of records whose status is exactly that string;
the total is the length of the input and the completed count is the Completed entry;
on the empty input all counts are zero; and a record whose status is none of the four
changes no entry of the breakdown while it adds one to the total. -/
theorem statusBreakdown_counts (records : List Record) :
    (renderStats records).breakdown =
      [("Planned", records.countP (fun r => r.status == some "Planned")),
       ("Watching", records.countP (fun r => r.status == some "Watching")),
       ("Completed", records.countP (fun r => r.status == some "Completed")),
       ("Dropped", records.countP (fun r => r.status == some "Dropped"))] ∧
    (renderStats records).total = records.length ∧
    (renderStats records).completedCount =
      records.countP (fun r => r.status == some "Completed") ∧
    (renderStats []).breakdown =
      [("Planned", 0), ("Watching", 0), ("Completed", 0), ("Dropped", 0)] ∧
    ∀ (before after : List Record) (r : Record),
      records = before ++ r :: after → (∀ s ∈ statuses, r.status ≠ some s) →
      (renderStats records).breakdown = (renderStats (before ++ after)).breakdown ∧
      (renderStats records).total = (renderStats (before ++ after)).total + 1 := by
  simp only [renderStats]
  refine ⟨?_, rfl, ?_, rfl, ?_⟩
  · simp [statusBreakdown, statuses, List.countP_eq_length_filter]
  · simp [statCompleted, completed, List.countP_eq_length_filter]
  · rintro before after r rfl hr
    constructor
    · unfold statusBreakdown
      apply List.map_congr_left
      intro s hs
      have h : (r.status == some s) = false := by
        simpa using hr s hs
      simp [List.filter_cons, h]
    · simp [statTotal]; omega

/-- C8 at three records, the middle one with status `"Archived"`. -/
theorem statusBreakdown_counts_witness :
    (oddStatusRecords = [mkRecord "A" none "Planned"] ++
        mkRecord "B" none "Archived" :: [mkRecord "C" none "Completed"] ∧
      ∀ s ∈ statuses, (mkRecord "B" none "Archived").status ≠ some s) ∧
    (renderStats oddStatusRecords).breakdown =
      (renderStats
        ([mkRecord "A" none "Planned"] ++ [mkRecord "C" none "Completed"])).breakdown ∧
    (renderStats oddStatusRecords).total =
      (renderStats
        ([mkRecord "A" none "Planned"] ++ [mkRecord "C" none "Completed"])).total + 1 :=
  ⟨⟨rfl, by decide⟩,
   (statusBreakdown_counts oddStatusRecords).2.2.2.2 _ _ _ rfl (by decide)⟩

end Solo2
